import Mathlib

/-!
# Verification of the TAC execution simulator of `gui.py`

This file embeds, as executable Lean definitions, the two core functions of
the repository's TAC (three-address-code) execution simulator:

* `evaluate_simple_expression` (src/gui.py, lines 1204-1330), embedded as
  `Sim.pyEvalF` / `Sim.pyEval`;
* `simulate_ir_execution` (src/gui.py, lines 873-1060), embedded as
  `Sim.simulate` (pre-scan `Sim.preScan`, line classifier `Sim.classify`,
  one loop iteration `Sim.stepFn`, bounded loop `Sim.loopF`).

Modelling conventions:

* Python strings are embedded as `List Char`; the helper functions
  (`pyStrip`, `splitOnL`, `containsSub`, `splitWS`, ...) reproduce the exact
  semantics of the Python string methods used by the source (`str.strip`,
  `str.split(sep)`, the `in` substring test, `str.split()`).
* Python numbers are embedded as `Val`: `Val.I : Int` for `int`, and
  `Val.F : Rat` for `float`.  Floats are modelled as exact rationals; every
  concrete computation appearing in the theorems below stays on values where
  IEEE-754 double arithmetic is exact, so the model agrees with the source
  there.
* Python dicts are embedded as association lists with insertion-order
  preserving update (`updateA`), matching dict iteration order.
* The single place where the Python source can raise internally —
  `int(expr)` / `float(expr)` on a string that passed the digits-only guard
  but is not actually parseable — is modelled by `parseIntL` / `parseFloatL`
  returning `none`, upon which the evaluator returns `none` for the whole
  call: this reproduces the function-level `try/except` of the source, which
  catches the `ValueError` and returns `None`.
* The recursion of `evaluate_simple_expression` always recurses on strictly
  shorter strings; it is embedded with an explicit fuel parameter, and the
  wrapper `pyEval` supplies fuel `length + 1`, which is never exhausted.
* The `while` loop of `simulate_ir_execution` runs at most `1000` iterations
  (`iteration_count < max_iterations`); it is embedded as the fuel-indexed
  `loopF` with initial fuel `1000`.
-/

set_option maxRecDepth 100000

namespace Sim

/-- Python strings as lists of characters. -/
abbrev LC := List Char

/-- Characters treated as whitespace by Python `str.strip()` / `str.split()`
(ASCII range; the source only ever meets spaces and tabs). -/
def pyIsSpace (c : Char) : Bool :=
  c = ' ' || c = '\t' || c = '\n' || c = '\r' || c = '\x0b' || c = '\x0c'

/-- `str.lstrip()`. -/
def pyLStrip (s : LC) : LC := s.dropWhile pyIsSpace

/-- `str.rstrip()`. -/
def pyRStrip (s : LC) : LC := (s.reverse.dropWhile pyIsSpace).reverse

/-- `str.strip()`. -/
def pyStrip (s : LC) : LC := pyRStrip (pyLStrip s)

/-- `str.rstrip(chars)` for a single character, e.g. `line.rstrip(':')`. -/
def pyRStripChar (c : Char) (s : LC) : LC :=
  (s.reverse.dropWhile (fun d => d = c)).reverse

/-- Python substring test `sep in s` (for nonempty `sep`). -/
def containsSub (sep : LC) : LC → Bool
  | [] => false
  | c :: rest => sep.isPrefixOf (c :: rest) || containsSub sep rest

/-- Worker for Python `s.split(sep)` with a nonempty separator
`sep = s0 :: srest`; `acc` holds the current chunk reversed.  The fuel is
structural recursion bookkeeping only: every step consumes at least one
character, so the wrapper's `length + 1` is never exhausted. -/
def splitGo (s0 : Char) (srest : LC) : Nat → LC → LC → List LC
  | _, [], acc => [acc.reverse]
  | 0, l, acc => [acc.reverse ++ l]
  | fuel + 1, c :: rest, acc =>
    if (s0 :: srest).isPrefixOf (c :: rest) then
      acc.reverse :: splitGo s0 srest fuel (rest.drop srest.length) []
    else
      splitGo s0 srest fuel rest (c :: acc)

/-- Python `s.split(sep)` for nonempty `sep` (all occurrences, left to
right, non-overlapping, empty chunks kept). -/
def splitOnL (sep : LC) (s : LC) : List LC :=
  match sep with
  | [] => [s]
  | s0 :: srest => splitGo s0 srest (s.length + 1) s []

/-- Python `s.split(sep, 1)`: split at the first occurrence only. -/
def splitFirst (c : Char) (s : LC) : LC × LC :=
  match s with
  | [] => ([], [])
  | d :: rest =>
    if d = c then ([], rest)
    else
      let p := splitFirst c rest
      (d :: p.1, p.2)

/-- Worker for Python whitespace split `s.split()`; `acc` holds the current
chunk reversed. -/
def splitWSGo : LC → LC → List LC
  | acc, [] => if acc = [] then [] else [acc.reverse]
  | acc, c :: rest =>
    if pyIsSpace c then
      if acc = [] then splitWSGo [] rest else acc.reverse :: splitWSGo [] rest
    else splitWSGo (c :: acc) rest

/-- Python whitespace split `s.split()`: runs of whitespace separate the
chunks, no empty chunks are produced. -/
def splitWS (s : LC) : List LC := splitWSGo [] s

/-- All-characters-digits test; Python `str.isdigit()` additionally requires
the string to be nonempty. -/
def isDigits (s : LC) : Bool := s ≠ [] && s.all Char.isDigit

/-- Numeric value of a digit string (most significant first). -/
def digitsVal (s : LC) : Nat := s.foldl (fun acc c => acc * 10 + (c.toNat - 48)) 0

/-- Python `int(s)` on an already-stripped string that does not start with a
sign (the evaluator's unary-minus branch has already consumed any sign):
succeeds exactly on nonempty all-digit strings, otherwise raises
(`none` here). -/
def parseIntL (s : LC) : Option Int :=
  if isDigits s then some (digitsVal s) else none

/-- Python `float(s)` on an already-stripped, sign-free string made of
digits, dots and dashes (the guard in the source admits only those):
succeeds exactly when there is no dash, at most one dot and at least one
digit.  The value is the exact rational; the source gets the nearest
IEEE-754 double. -/
def parseFloatL (s : LC) : Option Rat :=
  if s.all (fun c => c.isDigit || c = '.') && s.count '.' ≤ 1 && s.any Char.isDigit then
    let parts := splitOnL ['.'] s
    let intPart := digitsVal (parts.getD 0 [])
    let fracPart := parts.getD 1 []
    some ((intPart : Rat) + (digitsVal fracPart : Rat) / ((10 : Rat) ^ fracPart.length))
  else none

/-- A Python number: `int` or `float` (floats modelled as exact rationals). -/
inductive Val where
  | I : Int → Val
  | F : Rat → Val
  deriving DecidableEq, Repr

/-- The rational magnitude of a value (Python compares `int` and `float`
numerically). -/
def Val.toRat : Val → Rat
  | .I n => (n : Rat)
  | .F q => q

/-- Python `+` on numbers: `int + int` is `int`, anything involving a
`float` is `float`. -/
def valAdd : Val → Val → Val
  | .I a, .I b => .I (a + b)
  | a, b => .F (a.toRat + b.toRat)

/-- Python `-` on numbers. -/
def valSub : Val → Val → Val
  | .I a, .I b => .I (a - b)
  | a, b => .F (a.toRat - b.toRat)

/-- Python `*` on numbers. -/
def valMul : Val → Val → Val
  | .I a, .I b => .I (a * b)
  | a, b => .F (a.toRat * b.toRat)

/-- Python `/` on numbers: true division, always a `float`. -/
def valDiv (a b : Val) : Val := .F (a.toRat / b.toRat)

/-- Python unary `-`. -/
def valNeg : Val → Val
  | .I n => .I (-n)
  | .F q => .F (-q)

/-- Python `int(x)` on a number: truncation toward zero. -/
def valToInt : Val → Val
  | .I n => .I n
  | .F q => .I (Int.sign q.num * (q.num.natAbs / q.den : Nat))

/-- Python `float(x)` on a number. -/
def valToFloat (v : Val) : Val := .F v.toRat

/-- Python `x != 0` / `x == 0` on a number. -/
def valIsZero (v : Val) : Bool := v.toRat = 0

/-- Environments and the assignment log: association lists with
insertion-order preserving update, matching Python dict semantics. -/
abbrev AList (β : Type) := List (LC × β)

/-- Dict lookup. -/
def lookupA {β : Type} (k : LC) : AList β → Option β
  | [] => none
  | (k2, v) :: rest => if k2 = k then some v else lookupA k rest

/-- Dict membership `k in d`. -/
def memA {β : Type} (k : LC) (d : AList β) : Bool := (lookupA k d).isSome

/-- Dict update `d[k] = v`: overwrites in place if the key exists
(keeping its position, as Python dicts do), else appends. -/
def updateA {β : Type} (k : LC) (v : β) : AList β → AList β
  | [] => [(k, v)]
  | (k2, w) :: rest => if k2 = k then (k2, v) :: rest else (k2, w) :: updateA k v rest

/-- The keys of a dict, in insertion order. -/
def keysA {β : Type} (d : AList β) : List LC := d.map Prod.fst

/-- Insert into a set of names only if absent (Python `set.add`; the source
only tests membership, so order is irrelevant). -/
def insertSet (k : LC) (s : List LC) : List LC :=
  if s.contains k then s else s ++ [k]

/-- Stable insertion into a `≤`-sorted list by key (the inserted element
goes after existing elements with an equal key). -/
def insSorted (f : LC → Nat) (x : LC) : List LC → List LC
  | [] => [x]
  | y :: ys => if f y ≤ f x then y :: insSorted f x ys else x :: y :: ys

/-- Python `sorted(l, key=f)`: stable sort by key. -/
def sortByKey (f : LC → Nat) (l : List LC) : List LC :=
  l.foldl (fun acc x => insSorted f x acc) []

/-- Decimal rendering of an integer (Python `str` of an `int`). -/
def intRepr (n : Int) : LC :=
  (if n < 0 then '-' :: (Nat.repr n.natAbs).data else (Nat.repr n.natAbs).data)

/-- Rendering of a value inside a trace f-string (`f"{var} = {val}"`).
Integers render exactly as Python does.  Integral floats render as Python
does (`"4.0"`); non-integral floats are rendered from the exact rational,
which agrees with Python whenever the double is exact (the only cases the
theorems below touch). -/
def valRepr : Val → LC
  | .I n => intRepr n
  | .F q =>
    if q.den = 1 then intRepr q.num ++ ['.', '0']
    else intRepr q.num ++ ['/', ':'] ++ (Nat.repr q.den).data

/-- A variable environment (`var_values` in the source). -/
abbrev Env := AList Val

/-- Embedding of `evaluate_simple_expression` (src/gui.py 1204-1330), with a
fuel parameter for the recursion (the source always recurses on strictly
shorter strings; the wrapper `pyEval` supplies sufficient fuel).

The source tries, in order: the `(int)` / `(float)` cast prefixes, the unary
minus prefix, environment lookup, the numeric-literal branch (whose guard
strips `.` and `-` before testing `isdigit`, and whose `int(...)`/
`float(...)` call may raise, caught by the function-level `try/except` —
modelled by returning `none` for the whole call), and then one attempt per
binary operator: `+`, `-`, `*`, `/` (each only when the operator occurs
exactly once), then `<=`, `>=`, `<` (only when no `<=` occurs), `>` (only
when no `>=` occurs), `==`, and `!=` (the source tests for the three-char
substring `" !="`, a space followed by `!=`, but then splits on `"!="`).
An attempt that does not `return` — operand not computable, split not in
two parts, zero divisor — falls through to the next operator. -/
def pyEvalF : Nat → LC → Env → Option Val
  | 0, _, _ => none
  | fuel + 1, expr0, env =>
    let expr := pyStrip expr0
    if (['(', 'i', 'n', 't', ')'] : LC).isPrefixOf expr then
      match pyEvalF fuel (pyStrip (expr.drop 5)) env with
      | some v => some (valToInt v)
      | none => none
    else if (['(', 'f', 'l', 'o', 'a', 't', ')'] : LC).isPrefixOf expr then
      match pyEvalF fuel (pyStrip (expr.drop 7)) env with
      | some v => some (valToFloat v)
      | none => none
    else if (['-'] : LC).isPrefixOf expr then
      match pyEvalF fuel (pyStrip (expr.drop 1)) env with
      | some v => some (valNeg v)
      | none => none
    else if h : (lookupA expr env).isSome then
      some ((lookupA expr env).get h)
    else if isDigits ((expr.filter (fun c => c ≠ '.')).filter (fun c => c ≠ '-')) then
      -- `return float(expr) if '.' in expr else int(expr)`; a parse failure
      -- raises and the enclosing try/except returns None for the whole call.
      if expr.contains '.' then
        match parseFloatL expr with
        | some q => some (.F q)
        | none => none
      else
        match parseIntL expr with
        | some n => some (.I n)
        | none => none
    else
      -- binary-operator attempts, in source order, with fall-through
      let attempt2 (parts : List LC) (combine : Val → Val → Option Val) : Option Val :=
        match parts with
        | [p0, p1] =>
          match pyEvalF fuel (pyStrip p0) env, pyEvalF fuel (pyStrip p1) env with
          | some l, some r => combine l r
          | _, _ => none
        | _ => none
      let tryAdd : Option Val :=
        if expr.contains '+' && expr.count '+' == 1 then
          attempt2 (splitOnL ['+'] expr) (fun l r => some (valAdd l r))
        else none
      let trySub : Option Val :=
        if expr.contains '-' && expr.count '-' == 1 then
          attempt2 (splitOnL ['-'] expr) (fun l r => some (valSub l r))
        else none
      let tryMul : Option Val :=
        if expr.contains '*' && expr.count '*' == 1 then
          attempt2 (splitOnL ['*'] expr) (fun l r => some (valMul l r))
        else none
      let tryDiv : Option Val :=
        if expr.contains '/' && expr.count '/' == 1 then
          attempt2 (splitOnL ['/'] expr)
            (fun l r => if valIsZero r then none else some (valDiv l r))
        else none
      let tryLe : Option Val :=
        if containsSub ['<', '='] expr then
          attempt2 (splitOnL ['<', '='] expr)
            (fun l r => some (.I (if l.toRat ≤ r.toRat then 1 else 0)))
        else none
      let tryGe : Option Val :=
        if containsSub ['>', '='] expr then
          attempt2 (splitOnL ['>', '='] expr)
            (fun l r => some (.I (if r.toRat ≤ l.toRat then 1 else 0)))
        else none
      let tryLt : Option Val :=
        if expr.contains '<' && !containsSub ['<', '='] expr then
          attempt2 (splitOnL ['<'] expr)
            (fun l r => some (.I (if l.toRat < r.toRat then 1 else 0)))
        else none
      let tryGt : Option Val :=
        if expr.contains '>' && !containsSub ['>', '='] expr then
          attempt2 (splitOnL ['>'] expr)
            (fun l r => some (.I (if r.toRat < l.toRat then 1 else 0)))
        else none
      let tryEq : Option Val :=
        if containsSub ['=', '='] expr then
          attempt2 (splitOnL ['=', '='] expr)
            (fun l r => some (.I (if l.toRat = r.toRat then 1 else 0)))
        else none
      let tryNe : Option Val :=
        if containsSub [' ', '!', '='] expr then
          attempt2 (splitOnL ['!', '='] expr)
            (fun l r => some (.I (if l.toRat = r.toRat then 0 else 1)))
        else none
      tryAdd <|> trySub <|> tryMul <|> tryDiv <|>
        tryLe <|> tryGe <|> tryLt <|> tryGt <|> tryEq <|> tryNe

/-- `evaluate_simple_expression(expr, var_values)`: the fuel `length + 1`
is never exhausted, since each recursive call is on a strictly shorter
string. -/
def pyEval (e : LC) (env : Env) : Option Val := pyEvalF (e.length + 1) e env

/-- `s.endswith(suff)`. -/
def endsWithL (suff s : LC) : Bool := suff.reverse.isPrefixOf s.reverse

/-- The outcome component of a `SimulationResult`: the Python value is
`None` (unresolved), a number, or the string `"ARRAY_OPERATION"`. -/
inductive SimOutcome where
  | num : Val → SimOutcome
  | arrayDependent : SimOutcome
  | unresolved : SimOutcome
  deriving DecidableEq, Repr

/-- Read-only per-run context: the normalized instruction stream, the label
table, and the results of the array pre-scan (src/gui.py 879-916). -/
structure Ctx where
  instrs : List LC
  labels : AList Nat
  arrayVars : List LC
  hasIncomplete : Bool
  deriving Repr, DecidableEq

/-- Mutable simulation state (src/gui.py 919-925); the iteration counter is
carried as the fuel of `loopF`. -/
structure SimState where
  varValues : Env
  assignExprs : AList LC
  calcSteps : List LC
  pc : Nat
  hasArrayOps : Bool
  deriving Repr, DecidableEq

/-- The array pre-scan (src/gui.py 882-895): collect names assigned via
`... = *name` into `array_variables` (skipping temporaries), and flag
incomplete array operations (a line ending in `= *` or equal to `*`). -/
def preScan (irLines : List LC) : List LC × Bool :=
  irLines.foldl
    (fun acc line =>
      let s := pyStrip line
      let parts := splitOnL ['=', ' ', '*'] s
      let arrays :=
        if containsSub ['=', ' ', '*'] s && parts.length ≥ 2 then
          if parts.length == 2 then
            let av := pyStrip (parts.getD 1 [])
            if av ≠ [] && !((['t'] : LC).isPrefixOf av) then insertSet av acc.1 else acc.1
          else acc.1
        else acc.1
      let incomp := acc.2 || endsWithL ['=', ' ', '*'] s || s = ['*']
      (arrays, incomp))
    ([], false)

/-- The line classifier (src/gui.py 897-916): strip each line, drop blank
lines, record `L...`-labels at the current instruction count (without
emitting an instruction), drop `function` / `main:` declaration markers, and
keep every other line as an instruction. -/
def classifyAux : List LC → List LC → AList Nat → List LC × AList Nat
  | [], instrs, labels => (instrs, labels)
  | l :: rest, instrs, labels =>
    let line := pyStrip l
    if line = [] then classifyAux rest instrs labels
    else if endsWithL [':'] line && (['L'] : LC).isPrefixOf line then
      classifyAux rest instrs (updateA (pyRStripChar ':' line) instrs.length labels)
    else if !(("function".data).isPrefixOf line) && !endsWithL ("main:".data) line
        && line ≠ "main:".data then
      classifyAux rest (instrs ++ [line]) labels
    else classifyAux rest instrs labels

/-- Result of one loop iteration: either the run returns (a `return`
statement executed) or the loop continues in a new state. -/
inductive StepRes where
  | done : List LC × SimOutcome → StepRes
  | next : SimState → StepRes
  deriving Repr, DecidableEq

/-- The assignment block of the loop body (src/gui.py 970-1010), for a line
that contains `=` and no `return` substring: records the raw right-hand
side in the assignment log, skips call markers, flags and skips
`*`-expressions, filters array-size declarations, and otherwise evaluates
and stores the value with a trace step.  Every path advances `pc` by one
(in the source the plain path falls through the return check, which cannot
match an assignment line, to the final `pc += 1`). -/
def assignResult (ctx : Ctx) (s : SimState) (line : LC) : SimState :=
  let p := splitFirst '=' line
  let var := pyStrip p.1
  let expr := pyStrip p.2
  let ae := updateA var expr s.assignExprs
  if containsSub ("call".data) expr then
    { s with assignExprs := ae, pc := s.pc + 1 }
  else if expr.contains '*' || pyStrip expr = ['*'] then
    { s with assignExprs := ae, hasArrayOps := true, pc := s.pc + 1 }
  else
    let isArrayDecl := ctx.arrayVars.contains var && isDigits expr
    let isProbableArrayDecl := ctx.hasIncomplete && isDigits expr
      && !((['t'] : LC).isPrefixOf var) && digitsVal expr < 100
    if isArrayDecl || isProbableArrayDecl then
      { s with assignExprs := ae, pc := s.pc + 1 }
    else if var ≠ [] && expr ≠ [] then
      match pyEval expr s.varValues with
      | some v =>
        let steps := s.calcSteps ++
          (if !((['L'] : LC).isPrefixOf var) then
            [var ++ (' ' :: '=' :: ' ' :: valRepr v)] else [])
        { s with
          assignExprs := ae
          varValues := updateA var v s.varValues
          calcSteps := steps
          pc := s.pc + 1 }
      | none => { s with assignExprs := ae, pc := s.pc + 1 }
    else { s with assignExprs := ae, pc := s.pc + 1 }

/-- The `return` block of the loop body (src/gui.py 1012-1056), for a line
starting with `return`: evaluate the return expression; if that fails and
an array operation was observed, try the environment, then the assignment
log (with the first-plus-third-temporaries heuristic when the logged
right-hand side is an addition), then the sum-of-temporaries heuristic when
a call marker was logged; if everything fails under an observed array
operation, report the array-dependent sentinel, otherwise the value or
"unresolved". -/
def returnResult (s : SimState) (line : LC) : List LC × SimOutcome :=
  let parts := splitOnL ("return".data) line
  if parts.length > 1 then
    let expr := pyStrip (parts.getD 1 [])
    let rv0 := pyEval expr s.varValues
    let rv :=
      if s.hasArrayOps && rv0 = none then
        let rv1 :=
          if memA expr s.varValues then lookupA expr s.varValues
          else if memA expr s.assignExprs then
            let assignExpr := (lookupA expr s.assignExprs).getD []
            let rv2 := pyEval assignExpr s.varValues
            if rv2 = none && assignExpr.contains '+' then
              let tempVars := (keysA s.varValues).filter
                (fun k => (['t'] : LC).isPrefixOf k)
              if tempVars.length ≥ 3 then
                let sortedVars := sortByKey
                  (fun x => if isDigits (x.drop 1) then digitsVal (x.drop 1) else 0)
                  tempVars
                if sortedVars.length ≥ 3 then
                  some (valAdd
                    ((lookupA (sortedVars.getD 0 []) s.varValues).getD (.I 0))
                    ((lookupA (sortedVars.getD 2 []) s.varValues).getD (.I 0)))
                else rv2
              else rv2
            else rv2
          else none
        if rv1 = none then
          let tempVars := (keysA s.varValues).filter
            (fun k => (['t'] : LC).isPrefixOf k)
          if tempVars ≠ [] then
            let hasCall := s.assignExprs.any
              (fun kv => containsSub ("call".data) kv.2)
            if hasCall then
              some (tempVars.foldl
                (fun acc v => valAdd acc ((lookupA v s.varValues).getD (.I 0)))
                (.I 0))
            else none
          else none
        else rv1
      else rv0
    if s.hasArrayOps && rv = none then (s.calcSteps, .arrayDependent)
    else (s.calcSteps,
      match rv with
      | some v => .num v
      | none => .unresolved)
  else (s.calcSteps, .unresolved)

/-- One iteration of the simulation loop (src/gui.py 929-1058), for
`s.pc < ctx.instrs.length`.  Mirrors, in source order: the label-skip, the
unconditional jump (fail-open on unknown targets), the conditional jump,
the assignment block, and the `return` block. -/
def stepFn (ctx : Ctx) (s : SimState) : StepRes :=
  let line := ctx.instrs.getD s.pc []
  if endsWithL [':'] line then .next { s with pc := s.pc + 1 }
  else if ("jump ".data).isPrefixOf line then
    let label := pyStrip (line.drop 5)
    match lookupA label ctx.labels with
    | some i => .next { s with pc := i }
    | none => .next { s with pc := s.pc + 1 }
  else if ("if ".data).isPrefixOf line then
    let parts := splitWS line
    if parts.length ≥ 6 then
      let cond := parts.getD 1 []
      let op := parts.getD 2 []
      let target := if parts.getD 4 [] = "goto".data then parts.getD 5 [] else parts.getD 4 []
      let targetIndex := (lookupA target ctx.labels).getD (s.pc + 1)
      let condVal := (pyEval cond s.varValues).getD (.I 0)
      if op = ['!', '='] && !valIsZero condVal then .next { s with pc := targetIndex }
      else if op = ['=', '='] && valIsZero condVal then .next { s with pc := targetIndex }
      else .next { s with pc := s.pc + 1 }
    else .next { s with pc := s.pc + 1 }
  else if line.contains '=' && !containsSub ("return".data) line then
    .next (assignResult ctx s line)
  else if ("return".data).isPrefixOf line then
    .done (returnResult s line)
  else .next { s with pc := s.pc + 1 }

/-- The bounded simulation loop (`while pc < len(instructions) and
iteration_count < max_iterations`, src/gui.py 927): the fuel is
`max_iterations - iteration_count`; exhausting it, or falling off the end
of the stream, returns `(calc_steps, None)` (src/gui.py 1060). -/
def loopF (ctx : Ctx) : Nat → SimState → List LC × SimOutcome
  | 0, s => (s.calcSteps, .unresolved)
  | fuel + 1, s =>
    if s.pc < ctx.instrs.length then
      match stepFn ctx s with
      | .done r => r
      | .next s2 => loopF ctx fuel s2
    else (s.calcSteps, .unresolved)

/-- The per-run context built by the pre-scan and the classifier. -/
def mkCtx (irLines : List LC) : Ctx :=
  let pre := preScan irLines
  let ci := classifyAux irLines [] []
  { instrs := ci.1, labels := ci.2, arrayVars := pre.1, hasIncomplete := pre.2 }

/-- Fresh per-run state (src/gui.py 919-925). -/
def initState : SimState :=
  { varValues := [], assignExprs := [], calcSteps := [], pc := 0, hasArrayOps := false }

/-- `max_iterations = 1000` (src/gui.py 923). -/
def maxIterations : Nat := 1000

/-- Embedding of `simulate_ir_execution(ir_lines)` (src/gui.py 873-1060). -/
def simulate (irLines : List LC) : List LC × SimOutcome :=
  loopF (mkCtx irLines) maxIterations initState

/-- Number of non-overlapping occurrences of `sep` in `s` (Python
`s.count(sep)` for a multi-character separator). -/
def countOcc (sep s : LC) : Nat := (splitOnL sep s).length - 1

/-- Modelled from the claim C2 / spec section 4.2 item 5: a reference
evaluator whose binary operators are tested in the order stated by the
claim — `<=`, `>=`, `<` (only if no `<=` is present), `>` (only if no `>=`
is present), `==`, `!=`, `+`, `-`, `*`, `/` — each operator being split on
only if it occurs exactly once in the expression, the first such operator
determining the result (an operand that is not computable, or a zero
divisor, makes the whole expression not computable: no fall-through).
Rules 1-4 (casts, unary minus, variable lookup, numeric literal composed
only of digits and at most one decimal point) follow spec section 4.2
items 1-4.  Used only to exhibit where the claimed order disagrees with
the source's `evaluate_simple_expression`. -/
def specEvalF : Nat → LC → Env → Option Val
  | 0, _, _ => none
  | fuel + 1, expr0, env =>
    let expr := pyStrip expr0
    let specTry (parts : List LC) (combine : Val → Val → Option Val) : Option Val :=
      match parts with
      | [p0, p1] =>
        match specEvalF fuel (pyStrip p0) env, specEvalF fuel (pyStrip p1) env with
        | some l, some r => combine l r
        | _, _ => none
      | _ => none
    if (['(', 'i', 'n', 't', ')'] : LC).isPrefixOf expr then
      match specEvalF fuel (pyStrip (expr.drop 5)) env with
      | some v => some (valToInt v)
      | none => none
    else if (['(', 'f', 'l', 'o', 'a', 't', ')'] : LC).isPrefixOf expr then
      match specEvalF fuel (pyStrip (expr.drop 7)) env with
      | some v => some (valToFloat v)
      | none => none
    else if (['-'] : LC).isPrefixOf expr then
      match specEvalF fuel (pyStrip (expr.drop 1)) env with
      | some v => some (valNeg v)
      | none => none
    else if h : (lookupA expr env).isSome then
      some ((lookupA expr env).get h)
    else if expr ≠ [] && expr.all (fun c => c.isDigit || c = '.') && expr.count '.' ≤ 1
        && expr.any Char.isDigit then
      if expr.contains '.' then
        match parseFloatL expr with
        | some q => some (.F q)
        | none => none
      else
        match parseIntL expr with
        | some n => some (.I n)
        | none => none
    else if countOcc ['<', '='] expr == 1 then
      specTry (splitOnL ['<', '='] expr)
        (fun l r => some (.I (if l.toRat ≤ r.toRat then 1 else 0)))
    else if countOcc ['>', '='] expr == 1 then
      specTry (splitOnL ['>', '='] expr)
        (fun l r => some (.I (if r.toRat ≤ l.toRat then 1 else 0)))
    else if expr.count '<' == 1 && countOcc ['<', '='] expr == 0 then
      specTry (splitOnL ['<'] expr)
        (fun l r => some (.I (if l.toRat < r.toRat then 1 else 0)))
    else if expr.count '>' == 1 && countOcc ['>', '='] expr == 0 then
      specTry (splitOnL ['>'] expr)
        (fun l r => some (.I (if r.toRat < l.toRat then 1 else 0)))
    else if countOcc ['=', '='] expr == 1 then
      specTry (splitOnL ['=', '='] expr)
        (fun l r => some (.I (if l.toRat = r.toRat then 1 else 0)))
    else if countOcc ['!', '='] expr == 1 then
      specTry (splitOnL ['!', '='] expr)
        (fun l r => some (.I (if l.toRat = r.toRat then 0 else 1)))
    else if expr.count '+' == 1 then
      specTry (splitOnL ['+'] expr) (fun l r => some (valAdd l r))
    else if expr.count '-' == 1 then
      specTry (splitOnL ['-'] expr) (fun l r => some (valSub l r))
    else if expr.count '*' == 1 then
      specTry (splitOnL ['*'] expr) (fun l r => some (valMul l r))
    else if expr.count '/' == 1 then
      specTry (splitOnL ['/'] expr)
        (fun l r => if valIsZero r then none else some (valDiv l r))
    else none

/-- Wrapper for `specEvalF` with always-sufficient fuel. -/
def specEval (e : LC) (env : Env) : Option Val := specEvalF (e.length + 1) e env

/-! ## Helper lemmas -/

theorem digit_not_space {c : Char} (h : c.isDigit = true) : pyIsSpace c = false := by
  simp only [pyIsSpace, Bool.or_eq_false_iff, decide_eq_false_iff_not]
  refine ⟨⟨⟨⟨⟨?_, ?_⟩, ?_⟩, ?_⟩, ?_⟩, ?_⟩ <;> rintro rfl <;> revert h <;> decide

theorem beq_false_of_digit {c d : Char} (hc : c.isDigit = true)
    (hd : d.isDigit = false) : (d == c) = false := by
  rw [beq_eq_false_iff_ne]
  rintro rfl
  rw [hc] at hd
  exact Bool.noConfusion hd

theorem digits_cons {a : LC} (h : isDigits a = true) :
    ∃ c t, a = c :: t ∧ c.isDigit = true := by
  simp only [isDigits, Bool.and_eq_true, ne_eq, decide_eq_true_eq, List.all_eq_true] at h
  obtain ⟨hne, hall⟩ := h
  cases a with
  | nil => exact absurd rfl hne
  | cons c t => exact ⟨c, t, rfl, hall c (List.mem_cons_self _ _)⟩

theorem digits_mem {a : LC} (h : isDigits a = true) : ∀ c ∈ a, c.isDigit = true := by
  simp only [isDigits, Bool.and_eq_true, List.all_eq_true] at h
  exact h.2

theorem digits_rev_cons {a : LC} (h : isDigits a = true) :
    ∃ c t, a.reverse = c :: t ∧ c.isDigit = true := by
  obtain ⟨c0, t0, he, _⟩ := digits_cons h
  cases hr : a.reverse with
  | nil =>
    rw [he] at hr
    exact absurd hr (by simp)
  | cons c t =>
    refine ⟨c, t, rfl, digits_mem h c ?_⟩
    have hm : c ∈ a.reverse := by rw [hr]; exact List.mem_cons_self _ _
    exact List.mem_reverse.mp hm

theorem not_mem_digits {a : LC} (ha : isDigits a = true) {d : Char}
    (hd : d.isDigit = false) : d ∉ a := by
  intro hmem
  rw [digits_mem ha d hmem] at hd
  exact Bool.noConfusion hd

theorem pyStrip_eq_self_of {s : LC}
    (h1 : ∃ c t, s = c :: t ∧ pyIsSpace c = false)
    (h2 : ∃ c t, s.reverse = c :: t ∧ pyIsSpace c = false) : pyStrip s = s := by
  obtain ⟨c1, t1, he1, hc1⟩ := h1
  obtain ⟨c2, t2, he2, hc2⟩ := h2
  have hl : pyLStrip s = s := by
    rw [he1]
    simp [pyLStrip, List.dropWhile_cons, hc1]
  rw [pyStrip, hl, pyRStrip, he2]
  rw [List.dropWhile_cons, if_neg (by simp [hc2]), ← he2, List.reverse_reverse]

theorem pyStrip_digits {a : LC} (ha : isDigits a = true) : pyStrip a = a := by
  refine pyStrip_eq_self_of ?_ ?_
  · obtain ⟨c, t, he, hc⟩ := digits_cons ha
    exact ⟨c, t, he, digit_not_space hc⟩
  · obtain ⟨c, t, he, hc⟩ := digits_rev_cons ha
    exact ⟨c, t, he, digit_not_space hc⟩

theorem contains_eq_false {l : LC} {ch : Char} (h : ch ∉ l) : l.contains ch = false := by
  induction l with
  | nil => rfl
  | cons c rest ih =>
    simp only [List.contains_cons, Bool.or_eq_false_iff]
    constructor
    · rw [beq_eq_false_iff_ne]
      rintro rfl
      exact h (List.mem_cons_self _ _)
    · exact ih (fun hm => h (List.mem_cons_of_mem _ hm))

theorem isDigits_eq_false_of_mem {l : LC} (c : Char) (hc : c ∈ l)
    (h : c.isDigit = false) : isDigits l = false := by
  cases hd : isDigits l with
  | false => rfl
  | true =>
    rw [digits_mem hd c hc] at h
    exact Bool.noConfusion h

theorem splitGo_no_occ {s0 : Char} (ss : LC) (fuel : Nat) {l : LC} (acc : LC)
    (h : s0 ∉ l) : splitGo s0 ss fuel l acc = [acc.reverse ++ l] := by
  induction l generalizing fuel acc with
  | nil => cases fuel <;> simp [splitGo]
  | cons c rest ih =>
    cases fuel with
    | zero => rfl
    | succ g =>
      have hne : ((s0 :: ss).isPrefixOf (c :: rest)) = false := by
        simp only [List.isPrefixOf, Bool.and_eq_false_iff]
        left
        rw [beq_eq_false_iff_ne]
        rintro rfl
        exact h (List.mem_cons_self _ _)
      rw [splitGo, if_neg (by simp [hne])]
      rw [ih g (c :: acc) (fun hm => h (List.mem_cons_of_mem _ hm))]
      simp

theorem splitGo_two {s0 : Char} (ss : LC) {a b : LC} (acc : LC) (fuel : Nat)
    (hfuel : a.length < fuel) (ha : s0 ∉ a) (hb : s0 ∉ b) :
    splitGo s0 ss fuel (a ++ (s0 :: ss) ++ b) acc = [acc.reverse ++ a, b] := by
  induction a generalizing acc fuel with
  | nil =>
    cases fuel with
    | zero => omega
    | succ g =>
      have hshape : ([] : LC) ++ (s0 :: ss) ++ b = s0 :: (ss ++ b) := by simp
      rw [hshape, splitGo]
      rw [if_pos (List.isPrefixOf_iff_prefix.mpr ⟨b, by simp⟩)]
      have hdrop : (ss ++ b).drop ss.length = b := by simp
      rw [hdrop, splitGo_no_occ ss g [] hb]
      simp
  | cons d a2 ih =>
    cases fuel with
    | zero =>
      simp only [List.length_cons] at hfuel
      omega
    | succ g =>
      have hshape : (d :: a2) ++ (s0 :: ss) ++ b = d :: (a2 ++ (s0 :: ss) ++ b) := by
        simp
      rw [hshape, splitGo]
      have hne : ((s0 :: ss).isPrefixOf (d :: (a2 ++ (s0 :: ss) ++ b))) = false := by
        simp only [List.isPrefixOf, Bool.and_eq_false_iff]
        left
        rw [beq_eq_false_iff_ne]
        rintro rfl
        exact ha (List.mem_cons_self _ _)
      rw [if_neg (by rw [hne]; exact Bool.false_ne_true)]
      rw [ih (d :: acc) g (by simp only [List.length_cons] at hfuel; omega)
        (fun hm => ha (List.mem_cons_of_mem _ hm))]
      simp

theorem splitOnL_two {s0 : Char} (ss : LC) {a b : LC}
    (ha : s0 ∉ a) (hb : s0 ∉ b) :
    splitOnL (s0 :: ss) (a ++ (s0 :: ss) ++ b) = [a, b] := by
  rw [splitOnL]
  rw [splitGo_two ss [] ((a ++ (s0 :: ss) ++ b).length + 1) (by simp; omega) ha hb]
  simp

theorem splitOnL_single {s0 : Char} (ss : LC) {l : LC} (h : s0 ∉ l) :
    splitOnL (s0 :: ss) l = [l] := by
  rw [splitOnL, splitGo_no_occ ss (l.length + 1) [] h]
  simp

theorem containsSub_of_not_mem {s0 : Char} {ss l : LC} (h : s0 ∉ l) :
    containsSub (s0 :: ss) l = false := by
  induction l with
  | nil => rfl
  | cons c rest ih =>
    simp only [containsSub, Bool.or_eq_false_iff]
    constructor
    · simp only [List.isPrefixOf, Bool.and_eq_false_iff]
      left
      rw [beq_eq_false_iff_ne]
      rintro rfl
      exact h (List.mem_cons_self _ _)
    · exact ih (fun hm => h (List.mem_cons_of_mem _ hm))

theorem containsSub_middle {s0 : Char} (ss : LC) (a b : LC) :
    containsSub (s0 :: ss) (a ++ (s0 :: ss) ++ b) = true := by
  induction a with
  | nil =>
    have hshape : ([] : LC) ++ (s0 :: ss) ++ b = s0 :: (ss ++ b) := by simp
    rw [hshape]
    simp only [containsSub]
    have hpre : ((s0 :: ss).isPrefixOf (s0 :: (ss ++ b))) = true :=
      List.isPrefixOf_iff_prefix.mpr ⟨b, by simp⟩
    rw [hpre]
    simp
  | cons d a2 ih =>
    have hshape : (d :: a2) ++ (s0 :: ss) ++ b = d :: (a2 ++ (s0 :: ss) ++ b) := by
      simp
    rw [hshape]
    simp only [containsSub]
    rw [ih]
    simp

theorem count_le_of_containsSub {sep l : LC} (h : containsSub sep l = true)
    (ch : Char) : sep.count ch ≤ l.count ch := by
  induction l with
  | nil => simp [containsSub] at h
  | cons c rest ih =>
    simp only [containsSub, Bool.or_eq_true] at h
    rcases h with h | h
    · have hpre := List.isPrefixOf_iff_prefix.mp h
      exact hpre.sublist.count_le ch
    · calc sep.count ch ≤ rest.count ch := ih h
        _ ≤ (c :: rest).count ch := by
          rw [List.count_cons]
          omega

theorem containsSub_false_of_count {sep l : LC} (ch : Char)
    (h : l.count ch < sep.count ch) : containsSub sep l = false := by
  cases hcs : containsSub sep l with
  | false => rfl
  | true => exact absurd (count_le_of_containsSub hcs ch) (by omega)

theorem filter_ne_digits {a : LC} (ha : isDigits a = true) {d : Char}
    (hd : d.isDigit = false) : a.filter (fun x => x ≠ d) = a := by
  rw [List.filter_eq_self]
  intro x hx
  simp only [ne_eq, decide_eq_true_eq]
  rintro rfl
  rw [digits_mem ha x hx] at hd
  exact Bool.noConfusion hd

theorem head_isPrefixOf_false {d : Char} (ds : LC) {c : Char} (t : LC) (h : d ≠ c) :
    ((d :: ds).isPrefixOf (c :: t)) = false := by
  simp [List.isPrefixOf, h]

theorem ne_of_digit {c : Char} (hc : c.isDigit = true) :
    ∀ d : Char, d.isDigit = false → d ≠ c := by
  intro d hd heq
  rw [heq, hc] at hd
  exact Bool.noConfusion hd

theorem evalF_digits (f : Nat) (env : Env) {a : LC} (ha : isDigits a = true)
    (henv : lookupA a env = none) :
    pyEvalF (f + 1) a env = some (.I (digitsVal a)) := by
  obtain ⟨c, t, he, hc⟩ := digits_cons ha
  have hstrip : pyStrip a = a := pyStrip_digits ha
  have hint : ((['(', 'i', 'n', 't', ')'] : LC).isPrefixOf a) = false := by
    rw [he]
    exact head_isPrefixOf_false _ _ (ne_of_digit hc '(' (by decide))
  have hfloat : ((['(', 'f', 'l', 'o', 'a', 't', ')'] : LC).isPrefixOf a) = false := by
    rw [he]
    exact head_isPrefixOf_false _ _ (ne_of_digit hc '(' (by decide))
  have hneg : ((['-'] : LC).isPrefixOf a) = false := by
    rw [he]
    exact head_isPrefixOf_false _ _ (ne_of_digit hc '-' (by decide))
  have hfd : a.filter (fun x => x ≠ '.') = a := filter_ne_digits ha (by decide)
  have hfm : a.filter (fun x => x ≠ '-') = a := filter_ne_digits ha (by decide)
  have hdot : a.contains '.' = false :=
    contains_eq_false (not_mem_digits ha (by decide))
  simp only [pyEvalF, hstrip, hint, hfloat, hneg, henv, hfd, hfm, hdot, ha,
    Bool.false_eq_true, if_false, Option.isSome_none, dite_false, if_true,
    parseIntL, ha, if_pos]

theorem not_mem_glue {a b : LC} (sep : LC) (ha : isDigits a = true)
    (hb : isDigits b = true) {ch : Char} (hd : ch.isDigit = false)
    (hs : ch ∉ sep) : ch ∉ a ++ sep ++ b := by
  intro hmem
  simp only [List.mem_append] at hmem
  rcases hmem with (hm | hm) | hm
  · exact not_mem_digits ha hd hm
  · exact hs hm
  · exact not_mem_digits hb hd hm

theorem pyStrip_digit_edges {a b : LC} (mid : LC) (ha : isDigits a = true)
    (hb : isDigits b = true) : pyStrip (a ++ mid ++ b) = a ++ mid ++ b := by
  refine pyStrip_eq_self_of ?_ ?_
  · obtain ⟨c, t, he, hc⟩ := digits_cons ha
    exact ⟨c, t ++ mid ++ b, by simp [he], digit_not_space hc⟩
  · obtain ⟨c, t, hr, hc⟩ := digits_rev_cons hb
    refine ⟨c, t ++ mid.reverse ++ a.reverse, ?_, digit_not_space hc⟩
    simp [List.reverse_append, hr]

set_option maxHeartbeats 2000000 in
theorem evalF_rel_le (f : Nat) {a b : LC} (ha : isDigits a = true)
    (hb : isDigits b = true) :
    pyEvalF (f + 1 + 1) (a ++ ['<', '='] ++ b) [] =
      some (.I (if digitsVal a ≤ digitsVal b then 1 else 0)) := by
  obtain ⟨ca, ta, hea, hca⟩ := digits_cons ha
  have hshape : a ++ (['<', '='] : LC) ++ b = ca :: (ta ++ ['<', '='] ++ b) := by
    simp [hea]
  have hstrip : pyStrip (a ++ (['<', '='] : LC) ++ b) = a ++ ['<', '='] ++ b :=
    pyStrip_digit_edges _ ha hb
  have hint : ((['(', 'i', 'n', 't', ')'] : LC).isPrefixOf (a ++ ['<', '='] ++ b)) = false := by
    rw [hshape]
    exact head_isPrefixOf_false _ _ (ne_of_digit hca '(' (by decide))
  have hfloat : ((['(', 'f', 'l', 'o', 'a', 't', ')'] : LC).isPrefixOf (a ++ ['<', '='] ++ b)) = false := by
    rw [hshape]
    exact head_isPrefixOf_false _ _ (ne_of_digit hca '(' (by decide))
  have hneg : ((['-'] : LC).isPrefixOf (a ++ ['<', '='] ++ b)) = false := by
    rw [hshape]
    exact head_isPrefixOf_false _ _ (ne_of_digit hca '-' (by decide))
  have hltmem : '<' ∈ a ++ (['<', '='] : LC) ++ b := by simp
  have hnum : isDigits (((a ++ ['<', '='] ++ b).filter (fun x => x ≠ '.')).filter
      (fun x => x ≠ '-')) = false := by
    refine isDigits_eq_false_of_mem '<' ?_ (by decide)
    simp only [List.mem_filter]
    exact ⟨⟨hltmem, by decide⟩, by decide⟩
  have hplus : (a ++ (['<', '='] : LC) ++ b).contains '+' = false :=
    contains_eq_false (not_mem_glue _ ha hb (by decide) (by decide))
  have hminus : (a ++ (['<', '='] : LC) ++ b).contains '-' = false :=
    contains_eq_false (not_mem_glue _ ha hb (by decide) (by decide))
  have hstar : (a ++ (['<', '='] : LC) ++ b).contains '*' = false :=
    contains_eq_false (not_mem_glue _ ha hb (by decide) (by decide))
  have hslash : (a ++ (['<', '='] : LC) ++ b).contains '/' = false :=
    contains_eq_false (not_mem_glue _ ha hb (by decide) (by decide))
  have hle : containsSub ['<', '='] (a ++ ['<', '='] ++ b) = true :=
    containsSub_middle _ a b
  have hsplit : splitOnL ['<', '='] (a ++ ['<', '='] ++ b) = [a, b] :=
    splitOnL_two _ (not_mem_digits ha (by decide)) (not_mem_digits hb (by decide))
  have hsa : pyStrip a = a := pyStrip_digits ha
  have hsb : pyStrip b = b := pyStrip_digits hb
  have heva : pyEvalF (f + 1) a [] = some (.I (digitsVal a)) :=
    evalF_digits f [] ha rfl
  have hevb : pyEvalF (f + 1) b [] = some (.I (digitsVal b)) :=
    evalF_digits f [] hb rfl
  conv_lhs => rw [pyEvalF]
  simp only [hstrip, hint, hfloat, hneg, hnum, hplus, hminus, hstar, hslash,
    hle, hsplit, hsa, hsb, heva, hevb, lookupA, Option.isSome_none, Bool.false_eq_true,
    if_false, dite_false, Bool.false_and, Bool.and_false]
  simp only [if_true, Option.some_orElse, Option.none_orElse]
  simp [Val.toRat, Nat.cast_le, Int.cast_le]

theorem digits_len_pos {a : LC} (ha : isDigits a = true) : 1 ≤ a.length := by
  obtain ⟨c, t, he, _⟩ := digits_cons ha
  simp [he]

theorem count_zero_digits {a : LC} (ha : isDigits a = true) {d : Char}
    (hd : d.isDigit = false) : a.count d = 0 :=
  List.count_eq_zero.mpr (not_mem_digits ha hd)

set_option maxHeartbeats 1000000 in
theorem evalF_rel_ge (f : Nat) {a b : LC} (ha : isDigits a = true)
    (hb : isDigits b = true) :
    pyEvalF (f + 1 + 1) (a ++ ['>', '='] ++ b) [] =
      some (.I (if digitsVal b ≤ digitsVal a then 1 else 0)) := by
  obtain ⟨ca, ta, hea, hca⟩ := digits_cons ha
  have hshape : a ++ (['>', '='] : LC) ++ b = ca :: (ta ++ ['>', '='] ++ b) := by
    simp [hea]
  have hstrip : pyStrip (a ++ (['>', '='] : LC) ++ b) = a ++ ['>', '='] ++ b :=
    pyStrip_digit_edges _ ha hb
  have hint : ((['(', 'i', 'n', 't', ')'] : LC).isPrefixOf (a ++ ['>', '='] ++ b)) = false := by
    rw [hshape]
    exact head_isPrefixOf_false _ _ (ne_of_digit hca '(' (by decide))
  have hfloat : ((['(', 'f', 'l', 'o', 'a', 't', ')'] : LC).isPrefixOf (a ++ ['>', '='] ++ b)) = false := by
    rw [hshape]
    exact head_isPrefixOf_false _ _ (ne_of_digit hca '(' (by decide))
  have hneg : ((['-'] : LC).isPrefixOf (a ++ ['>', '='] ++ b)) = false := by
    rw [hshape]
    exact head_isPrefixOf_false _ _ (ne_of_digit hca '-' (by decide))
  have hnum : isDigits (((a ++ ['>', '='] ++ b).filter (fun x => x ≠ '.')).filter
      (fun x => x ≠ '-')) = false := by
    refine isDigits_eq_false_of_mem '>' ?_ (by decide)
    simp only [List.mem_filter]
    exact ⟨⟨by simp, by decide⟩, by decide⟩
  have hplus : (a ++ (['>', '='] : LC) ++ b).contains '+' = false :=
    contains_eq_false (not_mem_glue _ ha hb (by decide) (by decide))
  have hminus : (a ++ (['>', '='] : LC) ++ b).contains '-' = false :=
    contains_eq_false (not_mem_glue _ ha hb (by decide) (by decide))
  have hstar : (a ++ (['>', '='] : LC) ++ b).contains '*' = false :=
    contains_eq_false (not_mem_glue _ ha hb (by decide) (by decide))
  have hslash : (a ++ (['>', '='] : LC) ++ b).contains '/' = false :=
    contains_eq_false (not_mem_glue _ ha hb (by decide) (by decide))
  have hle : containsSub ['<', '='] (a ++ ['>', '='] ++ b) = false :=
    containsSub_of_not_mem (not_mem_glue _ ha hb (by decide) (by decide))
  have hge : containsSub ['>', '='] (a ++ ['>', '='] ++ b) = true :=
    containsSub_middle _ a b
  have hsplit : splitOnL ['>', '='] (a ++ ['>', '='] ++ b) = [a, b] :=
    splitOnL_two _ (not_mem_digits ha (by decide)) (not_mem_digits hb (by decide))
  have hsa : pyStrip a = a := pyStrip_digits ha
  have hsb : pyStrip b = b := pyStrip_digits hb
  have heva : pyEvalF (f + 1) a [] = some (.I (digitsVal a)) :=
    evalF_digits f [] ha rfl
  have hevb : pyEvalF (f + 1) b [] = some (.I (digitsVal b)) :=
    evalF_digits f [] hb rfl
  conv_lhs => rw [pyEvalF]
  simp only [hstrip, hint, hfloat, hneg, hnum, hplus, hminus, hstar, hslash,
    hle, hge, hsplit, hsa, hsb, heva, hevb, lookupA, Option.isSome_none,
    Bool.false_eq_true, if_false, dite_false, Bool.false_and, Bool.and_false]
  simp only [if_true, Option.some_orElse, Option.none_orElse]
  simp [Val.toRat, Nat.cast_le, Int.cast_le]

set_option maxHeartbeats 1000000 in
theorem evalF_rel_lt (f : Nat) {a b : LC} (ha : isDigits a = true)
    (hb : isDigits b = true) :
    pyEvalF (f + 1 + 1) (a ++ ['<'] ++ b) [] =
      some (.I (if digitsVal a < digitsVal b then 1 else 0)) := by
  obtain ⟨ca, ta, hea, hca⟩ := digits_cons ha
  have hshape : a ++ (['<'] : LC) ++ b = ca :: (ta ++ ['<'] ++ b) := by
    simp [hea]
  have hstrip : pyStrip (a ++ (['<'] : LC) ++ b) = a ++ ['<'] ++ b :=
    pyStrip_digit_edges _ ha hb
  have hint : ((['(', 'i', 'n', 't', ')'] : LC).isPrefixOf (a ++ ['<'] ++ b)) = false := by
    rw [hshape]
    exact head_isPrefixOf_false _ _ (ne_of_digit hca '(' (by decide))
  have hfloat : ((['(', 'f', 'l', 'o', 'a', 't', ')'] : LC).isPrefixOf (a ++ ['<'] ++ b)) = false := by
    rw [hshape]
    exact head_isPrefixOf_false _ _ (ne_of_digit hca '(' (by decide))
  have hneg : ((['-'] : LC).isPrefixOf (a ++ ['<'] ++ b)) = false := by
    rw [hshape]
    exact head_isPrefixOf_false _ _ (ne_of_digit hca '-' (by decide))
  have hnum : isDigits (((a ++ ['<'] ++ b).filter (fun x => x ≠ '.')).filter
      (fun x => x ≠ '-')) = false := by
    refine isDigits_eq_false_of_mem '<' ?_ (by decide)
    simp only [List.mem_filter]
    exact ⟨⟨by simp, by decide⟩, by decide⟩
  have hplus : (a ++ (['<'] : LC) ++ b).contains '+' = false :=
    contains_eq_false (not_mem_glue _ ha hb (by decide) (by decide))
  have hminus : (a ++ (['<'] : LC) ++ b).contains '-' = false :=
    contains_eq_false (not_mem_glue _ ha hb (by decide) (by decide))
  have hstar : (a ++ (['<'] : LC) ++ b).contains '*' = false :=
    contains_eq_false (not_mem_glue _ ha hb (by decide) (by decide))
  have hslash : (a ++ (['<'] : LC) ++ b).contains '/' = false :=
    contains_eq_false (not_mem_glue _ ha hb (by decide) (by decide))
  have hle : containsSub ['<', '='] (a ++ ['<'] ++ b) = false := by
    refine containsSub_false_of_count '=' ?_
    rw [List.count_eq_zero.mpr (not_mem_glue _ ha hb (by decide) (by decide))]
    decide
  have hge : containsSub ['>', '='] (a ++ ['<'] ++ b) = false :=
    containsSub_of_not_mem (not_mem_glue _ ha hb (by decide) (by decide))
  have hltc : (a ++ (['<'] : LC) ++ b).contains '<' = true :=
    List.elem_eq_true_of_mem (by simp)
  have hsplit : splitOnL ['<'] (a ++ ['<'] ++ b) = [a, b] :=
    splitOnL_two _ (not_mem_digits ha (by decide)) (not_mem_digits hb (by decide))
  have hsa : pyStrip a = a := pyStrip_digits ha
  have hsb : pyStrip b = b := pyStrip_digits hb
  have heva : pyEvalF (f + 1) a [] = some (.I (digitsVal a)) :=
    evalF_digits f [] ha rfl
  have hevb : pyEvalF (f + 1) b [] = some (.I (digitsVal b)) :=
    evalF_digits f [] hb rfl
  conv_lhs => rw [pyEvalF]
  simp only [hstrip, hint, hfloat, hneg, hnum, hplus, hminus, hstar, hslash,
    hle, hge, hltc, hsplit, hsa, hsb, heva, hevb, lookupA, Option.isSome_none,
    Bool.false_eq_true, if_false, dite_false, Bool.false_and, Bool.and_false,
    Bool.not_false, Bool.true_and, Bool.and_true, if_true]
  simp only [Option.some_orElse, Option.none_orElse]
  simp [Val.toRat, Nat.cast_lt, Int.cast_lt]

set_option maxHeartbeats 1000000 in
theorem evalF_rel_gt (f : Nat) {a b : LC} (ha : isDigits a = true)
    (hb : isDigits b = true) :
    pyEvalF (f + 1 + 1) (a ++ ['>'] ++ b) [] =
      some (.I (if digitsVal b < digitsVal a then 1 else 0)) := by
  obtain ⟨ca, ta, hea, hca⟩ := digits_cons ha
  have hshape : a ++ (['>'] : LC) ++ b = ca :: (ta ++ ['>'] ++ b) := by
    simp [hea]
  have hstrip : pyStrip (a ++ (['>'] : LC) ++ b) = a ++ ['>'] ++ b :=
    pyStrip_digit_edges _ ha hb
  have hint : ((['(', 'i', 'n', 't', ')'] : LC).isPrefixOf (a ++ ['>'] ++ b)) = false := by
    rw [hshape]
    exact head_isPrefixOf_false _ _ (ne_of_digit hca '(' (by decide))
  have hfloat : ((['(', 'f', 'l', 'o', 'a', 't', ')'] : LC).isPrefixOf (a ++ ['>'] ++ b)) = false := by
    rw [hshape]
    exact head_isPrefixOf_false _ _ (ne_of_digit hca '(' (by decide))
  have hneg : ((['-'] : LC).isPrefixOf (a ++ ['>'] ++ b)) = false := by
    rw [hshape]
    exact head_isPrefixOf_false _ _ (ne_of_digit hca '-' (by decide))
  have hnum : isDigits (((a ++ ['>'] ++ b).filter (fun x => x ≠ '.')).filter
      (fun x => x ≠ '-')) = false := by
    refine isDigits_eq_false_of_mem '>' ?_ (by decide)
    simp only [List.mem_filter]
    exact ⟨⟨by simp, by decide⟩, by decide⟩
  have hplus : (a ++ (['>'] : LC) ++ b).contains '+' = false :=
    contains_eq_false (not_mem_glue _ ha hb (by decide) (by decide))
  have hminus : (a ++ (['>'] : LC) ++ b).contains '-' = false :=
    contains_eq_false (not_mem_glue _ ha hb (by decide) (by decide))
  have hstar : (a ++ (['>'] : LC) ++ b).contains '*' = false :=
    contains_eq_false (not_mem_glue _ ha hb (by decide) (by decide))
  have hslash : (a ++ (['>'] : LC) ++ b).contains '/' = false :=
    contains_eq_false (not_mem_glue _ ha hb (by decide) (by decide))
  have hle : containsSub ['<', '='] (a ++ ['>'] ++ b) = false :=
    containsSub_of_not_mem (not_mem_glue _ ha hb (by decide) (by decide))
  have hge : containsSub ['>', '='] (a ++ ['>'] ++ b) = false := by
    refine containsSub_false_of_count '=' ?_
    rw [List.count_eq_zero.mpr (not_mem_glue _ ha hb (by decide) (by decide))]
    decide
  have hltc : (a ++ (['>'] : LC) ++ b).contains '<' = false :=
    contains_eq_false (not_mem_glue _ ha hb (by decide) (by decide))
  have hgtc : (a ++ (['>'] : LC) ++ b).contains '>' = true :=
    List.elem_eq_true_of_mem (by simp)
  have hsplit : splitOnL ['>'] (a ++ ['>'] ++ b) = [a, b] :=
    splitOnL_two _ (not_mem_digits ha (by decide)) (not_mem_digits hb (by decide))
  have hsa : pyStrip a = a := pyStrip_digits ha
  have hsb : pyStrip b = b := pyStrip_digits hb
  have heva : pyEvalF (f + 1) a [] = some (.I (digitsVal a)) :=
    evalF_digits f [] ha rfl
  have hevb : pyEvalF (f + 1) b [] = some (.I (digitsVal b)) :=
    evalF_digits f [] hb rfl
  conv_lhs => rw [pyEvalF]
  simp only [hstrip, hint, hfloat, hneg, hnum, hplus, hminus, hstar, hslash,
    hle, hge, hltc, hgtc, hsplit, hsa, hsb, heva, hevb, lookupA, Option.isSome_none,
    Bool.false_eq_true, if_false, dite_false, Bool.false_and, Bool.and_false,
    Bool.not_false, Bool.true_and, Bool.and_true, if_true]
  simp only [Option.some_orElse, Option.none_orElse]
  simp [Val.toRat, Nat.cast_lt, Int.cast_lt]

set_option maxHeartbeats 1000000 in
theorem evalF_rel_eq (f : Nat) {a b : LC} (ha : isDigits a = true)
    (hb : isDigits b = true) :
    pyEvalF (f + 1 + 1) (a ++ ['=', '='] ++ b) [] =
      some (.I (if digitsVal a = digitsVal b then 1 else 0)) := by
  obtain ⟨ca, ta, hea, hca⟩ := digits_cons ha
  have hshape : a ++ (['=', '='] : LC) ++ b = ca :: (ta ++ ['=', '='] ++ b) := by
    simp [hea]
  have hstrip : pyStrip (a ++ (['=', '='] : LC) ++ b) = a ++ ['=', '='] ++ b :=
    pyStrip_digit_edges _ ha hb
  have hint : ((['(', 'i', 'n', 't', ')'] : LC).isPrefixOf (a ++ ['=', '='] ++ b)) = false := by
    rw [hshape]
    exact head_isPrefixOf_false _ _ (ne_of_digit hca '(' (by decide))
  have hfloat : ((['(', 'f', 'l', 'o', 'a', 't', ')'] : LC).isPrefixOf (a ++ ['=', '='] ++ b)) = false := by
    rw [hshape]
    exact head_isPrefixOf_false _ _ (ne_of_digit hca '(' (by decide))
  have hneg : ((['-'] : LC).isPrefixOf (a ++ ['=', '='] ++ b)) = false := by
    rw [hshape]
    exact head_isPrefixOf_false _ _ (ne_of_digit hca '-' (by decide))
  have hnum : isDigits (((a ++ ['=', '='] ++ b).filter (fun x => x ≠ '.')).filter
      (fun x => x ≠ '-')) = false := by
    refine isDigits_eq_false_of_mem '=' ?_ (by decide)
    simp only [List.mem_filter]
    exact ⟨⟨by simp, by decide⟩, by decide⟩
  have hplus : (a ++ (['=', '='] : LC) ++ b).contains '+' = false :=
    contains_eq_false (not_mem_glue _ ha hb (by decide) (by decide))
  have hminus : (a ++ (['=', '='] : LC) ++ b).contains '-' = false :=
    contains_eq_false (not_mem_glue _ ha hb (by decide) (by decide))
  have hstar : (a ++ (['=', '='] : LC) ++ b).contains '*' = false :=
    contains_eq_false (not_mem_glue _ ha hb (by decide) (by decide))
  have hslash : (a ++ (['=', '='] : LC) ++ b).contains '/' = false :=
    contains_eq_false (not_mem_glue _ ha hb (by decide) (by decide))
  have hle : containsSub ['<', '='] (a ++ ['=', '='] ++ b) = false :=
    containsSub_of_not_mem (not_mem_glue _ ha hb (by decide) (by decide))
  have hge : containsSub ['>', '='] (a ++ ['=', '='] ++ b) = false :=
    containsSub_of_not_mem (not_mem_glue _ ha hb (by decide) (by decide))
  have hltc : (a ++ (['=', '='] : LC) ++ b).contains '<' = false :=
    contains_eq_false (not_mem_glue _ ha hb (by decide) (by decide))
  have hgtc : (a ++ (['=', '='] : LC) ++ b).contains '>' = false :=
    contains_eq_false (not_mem_glue _ ha hb (by decide) (by decide))
  have heq : containsSub ['=', '='] (a ++ ['=', '='] ++ b) = true :=
    containsSub_middle _ a b
  have hsplit : splitOnL ['=', '='] (a ++ ['=', '='] ++ b) = [a, b] :=
    splitOnL_two _ (not_mem_digits ha (by decide)) (not_mem_digits hb (by decide))
  have hsa : pyStrip a = a := pyStrip_digits ha
  have hsb : pyStrip b = b := pyStrip_digits hb
  have heva : pyEvalF (f + 1) a [] = some (.I (digitsVal a)) :=
    evalF_digits f [] ha rfl
  have hevb : pyEvalF (f + 1) b [] = some (.I (digitsVal b)) :=
    evalF_digits f [] hb rfl
  conv_lhs => rw [pyEvalF]
  simp only [hstrip, hint, hfloat, hneg, hnum, hplus, hminus, hstar, hslash,
    hle, hge, hltc, hgtc, heq, hsplit, hsa, hsb, heva, hevb, lookupA,
    Option.isSome_none, Bool.false_eq_true, if_false, dite_false, Bool.false_and,
    Bool.and_false, if_true]
  simp only [Option.some_orElse, Option.none_orElse]
  simp [Val.toRat, Nat.cast_inj, Int.cast_inj]

theorem pyStrip_pad_right {a : LC} (ha : isDigits a = true) :
    pyStrip (a ++ [' ']) = a := by
  obtain ⟨c, t, he, hc⟩ := digits_cons ha
  obtain ⟨cr, tr, hr, hcr⟩ := digits_rev_cons ha
  have hl : pyLStrip (a ++ [' ']) = a ++ [' '] := by
    rw [he]
    simp [pyLStrip, List.dropWhile_cons, digit_not_space hc]
  rw [pyStrip, hl, pyRStrip]
  have hrev : (a ++ [' ']).reverse = ' ' :: a.reverse := by simp
  rw [hrev, List.dropWhile_cons, if_pos (by decide), hr, List.dropWhile_cons,
    if_neg (by simp [digit_not_space hcr]), ← hr, List.reverse_reverse]

theorem pyStrip_pad_left {b : LC} (hb : isDigits b = true) :
    pyStrip (' ' :: b) = b := by
  obtain ⟨c, t, he, hc⟩ := digits_cons hb
  obtain ⟨cr, tr, hr, hcr⟩ := digits_rev_cons hb
  have hl : pyLStrip (' ' :: b) = b := by
    rw [pyLStrip, List.dropWhile_cons, if_pos (by decide), he, List.dropWhile_cons,
      if_neg (by simp [digit_not_space hc])]
  rw [pyStrip, hl, pyRStrip, hr, List.dropWhile_cons,
    if_neg (by simp [digit_not_space hcr]), ← hr, List.reverse_reverse]

set_option maxHeartbeats 1000000 in
theorem evalF_rel_ne_spaced (f : Nat) {a b : LC} (ha : isDigits a = true)
    (hb : isDigits b = true) :
    pyEvalF (f + 1 + 1) (a ++ [' ', '!', '=', ' '] ++ b) [] =
      some (.I (if digitsVal a = digitsVal b then 0 else 1)) := by
  obtain ⟨ca, ta, hea, hca⟩ := digits_cons ha
  have hshape : a ++ ([' ', '!', '=', ' '] : LC) ++ b
      = ca :: (ta ++ [' ', '!', '=', ' '] ++ b) := by
    simp [hea]
  have hstrip : pyStrip (a ++ ([' ', '!', '=', ' '] : LC) ++ b)
      = a ++ [' ', '!', '=', ' '] ++ b :=
    pyStrip_digit_edges _ ha hb
  have hint : ((['(', 'i', 'n', 't', ')'] : LC).isPrefixOf
      (a ++ [' ', '!', '=', ' '] ++ b)) = false := by
    rw [hshape]
    exact head_isPrefixOf_false _ _ (ne_of_digit hca '(' (by decide))
  have hfloat : ((['(', 'f', 'l', 'o', 'a', 't', ')'] : LC).isPrefixOf
      (a ++ [' ', '!', '=', ' '] ++ b)) = false := by
    rw [hshape]
    exact head_isPrefixOf_false _ _ (ne_of_digit hca '(' (by decide))
  have hneg : ((['-'] : LC).isPrefixOf (a ++ [' ', '!', '=', ' '] ++ b)) = false := by
    rw [hshape]
    exact head_isPrefixOf_false _ _ (ne_of_digit hca '-' (by decide))
  have hnum : isDigits (((a ++ [' ', '!', '=', ' '] ++ b).filter (fun x => x ≠ '.')).filter
      (fun x => x ≠ '-')) = false := by
    refine isDigits_eq_false_of_mem '!' ?_ (by decide)
    simp only [List.mem_filter]
    exact ⟨⟨by simp, by decide⟩, by decide⟩
  have hplus : (a ++ ([' ', '!', '=', ' '] : LC) ++ b).contains '+' = false :=
    contains_eq_false (not_mem_glue _ ha hb (by decide) (by decide))
  have hminus : (a ++ ([' ', '!', '=', ' '] : LC) ++ b).contains '-' = false :=
    contains_eq_false (not_mem_glue _ ha hb (by decide) (by decide))
  have hstar : (a ++ ([' ', '!', '=', ' '] : LC) ++ b).contains '*' = false :=
    contains_eq_false (not_mem_glue _ ha hb (by decide) (by decide))
  have hslash : (a ++ ([' ', '!', '=', ' '] : LC) ++ b).contains '/' = false :=
    contains_eq_false (not_mem_glue _ ha hb (by decide) (by decide))
  have hle : containsSub ['<', '='] (a ++ [' ', '!', '=', ' '] ++ b) = false :=
    containsSub_of_not_mem (not_mem_glue _ ha hb (by decide) (by decide))
  have hge : containsSub ['>', '='] (a ++ [' ', '!', '=', ' '] ++ b) = false :=
    containsSub_of_not_mem (not_mem_glue _ ha hb (by decide) (by decide))
  have hltc : (a ++ ([' ', '!', '=', ' '] : LC) ++ b).contains '<' = false :=
    contains_eq_false (not_mem_glue _ ha hb (by decide) (by decide))
  have hgtc : (a ++ ([' ', '!', '=', ' '] : LC) ++ b).contains '>' = false :=
    contains_eq_false (not_mem_glue _ ha hb (by decide) (by decide))
  have heqc : containsSub ['=', '='] (a ++ [' ', '!', '=', ' '] ++ b) = false := by
    refine containsSub_false_of_count '=' ?_
    have : (a ++ ([' ', '!', '=', ' '] : LC) ++ b).count '=' = 1 := by
      simp [List.count_append, count_zero_digits ha, count_zero_digits hb]
    rw [this]
    decide
  have hnec : containsSub [' ', '!', '='] (a ++ [' ', '!', '=', ' '] ++ b) = true := by
    have hre : a ++ ([' ', '!', '=', ' '] : LC) ++ b
        = a ++ [' ', '!', '='] ++ (' ' :: b) := by simp
    rw [hre]
    exact containsSub_middle _ a (' ' :: b)
  have hsplit : splitOnL ['!', '='] (a ++ [' ', '!', '=', ' '] ++ b)
      = [a ++ [' '], ' ' :: b] := by
    have hre : a ++ ([' ', '!', '=', ' '] : LC) ++ b
        = (a ++ [' ']) ++ ['!', '='] ++ (' ' :: b) := by simp
    rw [hre]
    refine splitOnL_two _ ?_ ?_
    · intro hm
      simp only [List.mem_append] at hm
      rcases hm with hm | hm
      · exact not_mem_digits ha (by decide) hm
      · simp at hm
    · intro hm
      simp only [List.mem_cons] at hm
      rcases hm with hm | hm
      · exact absurd hm (by decide)
      · exact not_mem_digits hb (by decide) hm
  have hsa : pyStrip (a ++ [' ']) = a := pyStrip_pad_right ha
  have hsb : pyStrip (' ' :: b) = b := pyStrip_pad_left hb
  have heva : pyEvalF (f + 1) a [] = some (.I (digitsVal a)) :=
    evalF_digits f [] ha rfl
  have hevb : pyEvalF (f + 1) b [] = some (.I (digitsVal b)) :=
    evalF_digits f [] hb rfl
  conv_lhs => rw [pyEvalF]
  simp only [hstrip, hint, hfloat, hneg, hnum, hplus, hminus, hstar, hslash,
    hle, hge, hltc, hgtc, heqc, hnec, hsplit, hsa, hsb, heva, hevb, lookupA,
    Option.isSome_none, Bool.false_eq_true, if_false, dite_false, Bool.false_and,
    Bool.and_false, if_true]
  simp only [Option.some_orElse, Option.none_orElse]
  simp [Val.toRat, Nat.cast_inj, Int.cast_inj]

set_option maxHeartbeats 1000000 in
theorem evalF_rel_ne_bare (f : Nat) {a b : LC} (ha : isDigits a = true)
    (hb : isDigits b = true) :
    pyEvalF (f + 1) (a ++ ['!', '='] ++ b) [] = none := by
  obtain ⟨ca, ta, hea, hca⟩ := digits_cons ha
  have hshape : a ++ (['!', '='] : LC) ++ b = ca :: (ta ++ ['!', '='] ++ b) := by
    simp [hea]
  have hstrip : pyStrip (a ++ (['!', '='] : LC) ++ b) = a ++ ['!', '='] ++ b :=
    pyStrip_digit_edges _ ha hb
  have hint : ((['(', 'i', 'n', 't', ')'] : LC).isPrefixOf (a ++ ['!', '='] ++ b)) = false := by
    rw [hshape]
    exact head_isPrefixOf_false _ _ (ne_of_digit hca '(' (by decide))
  have hfloat : ((['(', 'f', 'l', 'o', 'a', 't', ')'] : LC).isPrefixOf (a ++ ['!', '='] ++ b)) = false := by
    rw [hshape]
    exact head_isPrefixOf_false _ _ (ne_of_digit hca '(' (by decide))
  have hneg : ((['-'] : LC).isPrefixOf (a ++ ['!', '='] ++ b)) = false := by
    rw [hshape]
    exact head_isPrefixOf_false _ _ (ne_of_digit hca '-' (by decide))
  have hnum : isDigits (((a ++ ['!', '='] ++ b).filter (fun x => x ≠ '.')).filter
      (fun x => x ≠ '-')) = false := by
    refine isDigits_eq_false_of_mem '!' ?_ (by decide)
    simp only [List.mem_filter]
    exact ⟨⟨by simp, by decide⟩, by decide⟩
  have hplus : (a ++ (['!', '='] : LC) ++ b).contains '+' = false :=
    contains_eq_false (not_mem_glue _ ha hb (by decide) (by decide))
  have hminus : (a ++ (['!', '='] : LC) ++ b).contains '-' = false :=
    contains_eq_false (not_mem_glue _ ha hb (by decide) (by decide))
  have hstar : (a ++ (['!', '='] : LC) ++ b).contains '*' = false :=
    contains_eq_false (not_mem_glue _ ha hb (by decide) (by decide))
  have hslash : (a ++ (['!', '='] : LC) ++ b).contains '/' = false :=
    contains_eq_false (not_mem_glue _ ha hb (by decide) (by decide))
  have hle : containsSub ['<', '='] (a ++ ['!', '='] ++ b) = false :=
    containsSub_of_not_mem (not_mem_glue _ ha hb (by decide) (by decide))
  have hge : containsSub ['>', '='] (a ++ ['!', '='] ++ b) = false :=
    containsSub_of_not_mem (not_mem_glue _ ha hb (by decide) (by decide))
  have hltc : (a ++ (['!', '='] : LC) ++ b).contains '<' = false :=
    contains_eq_false (not_mem_glue _ ha hb (by decide) (by decide))
  have hgtc : (a ++ (['!', '='] : LC) ++ b).contains '>' = false :=
    contains_eq_false (not_mem_glue _ ha hb (by decide) (by decide))
  have heqc : containsSub ['=', '='] (a ++ ['!', '='] ++ b) = false := by
    refine containsSub_false_of_count '=' ?_
    have : (a ++ (['!', '='] : LC) ++ b).count '=' = 1 := by
      simp [List.count_append, count_zero_digits ha, count_zero_digits hb]
    rw [this]
    decide
  have hnec : containsSub [' ', '!', '='] (a ++ ['!', '='] ++ b) = false :=
    containsSub_of_not_mem (not_mem_glue _ ha hb (by decide) (by decide))
  conv_lhs => rw [pyEvalF]
  simp only [hstrip, hint, hfloat, hneg, hnum, hplus, hminus, hstar, hslash,
    hle, hge, hltc, hgtc, heqc, hnec, lookupA, Option.isSome_none,
    Bool.false_eq_true, if_false, dite_false, Bool.false_and, Bool.and_false]
  simp

set_option maxHeartbeats 1000000 in
theorem evalF_add_before_rel (f : Nat) {a b c : LC} (ha : isDigits a = true)
    (hb : isDigits b = true) (hc : isDigits c = true) :
    pyEvalF (f + 1 + 1 + 1) (a ++ ['+'] ++ b ++ ['<', '='] ++ c) [] =
      some (.I ((digitsVal a : Int) +
        if digitsVal b ≤ digitsVal c then 1 else 0)) := by
  obtain ⟨ca, ta, hea, hca⟩ := digits_cons ha
  have hre1 : a ++ (['+'] : LC) ++ b ++ ['<', '='] ++ c
      = a ++ (['+'] ++ b ++ ['<', '=']) ++ c := by simp
  have hre2 : a ++ (['+'] : LC) ++ b ++ ['<', '='] ++ c
      = a ++ ['+'] ++ (b ++ ['<', '='] ++ c) := by simp
  have hshape : a ++ (['+'] : LC) ++ b ++ ['<', '='] ++ c
      = ca :: (ta ++ ['+'] ++ b ++ ['<', '='] ++ c) := by simp [hea]
  have hstrip : pyStrip (a ++ (['+'] : LC) ++ b ++ ['<', '='] ++ c)
      = a ++ ['+'] ++ b ++ ['<', '='] ++ c := by
    rw [hre1]
    exact pyStrip_digit_edges _ ha hc
  have hint : ((['(', 'i', 'n', 't', ')'] : LC).isPrefixOf
      (a ++ ['+'] ++ b ++ ['<', '='] ++ c)) = false := by
    rw [hshape]
    exact head_isPrefixOf_false _ _ (ne_of_digit hca '(' (by decide))
  have hfloat : ((['(', 'f', 'l', 'o', 'a', 't', ')'] : LC).isPrefixOf
      (a ++ ['+'] ++ b ++ ['<', '='] ++ c)) = false := by
    rw [hshape]
    exact head_isPrefixOf_false _ _ (ne_of_digit hca '(' (by decide))
  have hneg : ((['-'] : LC).isPrefixOf (a ++ ['+'] ++ b ++ ['<', '='] ++ c)) = false := by
    rw [hshape]
    exact head_isPrefixOf_false _ _ (ne_of_digit hca '-' (by decide))
  have hnum : isDigits (((a ++ ['+'] ++ b ++ ['<', '='] ++ c).filter
      (fun x => x ≠ '.')).filter (fun x => x ≠ '-')) = false := by
    refine isDigits_eq_false_of_mem '+' ?_ (by decide)
    simp only [List.mem_filter]
    exact ⟨⟨by simp, by decide⟩, by decide⟩
  have hplusc : (a ++ (['+'] : LC) ++ b ++ ['<', '='] ++ c).contains '+' = true :=
    List.elem_eq_true_of_mem (by simp)
  have hpcount : (a ++ (['+'] : LC) ++ b ++ ['<', '='] ++ c).count '+' = 1 := by
    simp [List.count_append, count_zero_digits ha, count_zero_digits hb,
      count_zero_digits hc]
  have hsplit : splitOnL ['+'] (a ++ ['+'] ++ b ++ ['<', '='] ++ c)
      = [a, b ++ ['<', '='] ++ c] := by
    rw [hre2]
    refine splitOnL_two _ (not_mem_digits ha (by decide)) ?_
    intro hm
    simp only [List.mem_append] at hm
    rcases hm with (hm | hm) | hm
    · exact not_mem_digits hb (by decide) hm
    · simp at hm
    · exact not_mem_digits hc (by decide) hm
  have hsa : pyStrip a = a := pyStrip_digits ha
  have hsbc : pyStrip (b ++ ['<', '='] ++ c) = b ++ ['<', '='] ++ c :=
    pyStrip_digit_edges _ hb hc
  have heva : pyEvalF (f + 1 + 1) a [] = some (.I (digitsVal a)) :=
    evalF_digits (f + 1) [] ha rfl
  have hevbc : pyEvalF (f + 1 + 1) (b ++ ['<', '='] ++ c) []
      = some (.I (if digitsVal b ≤ digitsVal c then 1 else 0)) :=
    evalF_rel_le f hb hc
  conv_lhs => rw [pyEvalF]
  simp only [hstrip, hint, hfloat, hneg, hnum, hplusc, hpcount, hsplit, hsa, hsbc,
    heva, hevbc, lookupA, Option.isSome_none, Bool.false_eq_true, if_false,
    dite_false, Bool.true_and, if_true]
  simp only [beq_self_eq_true, if_true, Option.some_orElse, Option.none_orElse]
  simp [valAdd]

theorem pyEval_rel_le {a b : LC} (ha : isDigits a = true) (hb : isDigits b = true) :
    pyEval (a ++ ['<', '='] ++ b) [] =
      some (.I (if digitsVal a ≤ digitsVal b then 1 else 0)) := by
  have heq : (a ++ (['<', '='] : LC) ++ b).length + 1
      = a.length + b.length + 1 + 1 + 1 := by
    simp [List.length_append]
    omega
  rw [pyEval, heq]
  exact evalF_rel_le _ ha hb

theorem pyEval_rel_ge {a b : LC} (ha : isDigits a = true) (hb : isDigits b = true) :
    pyEval (a ++ ['>', '='] ++ b) [] =
      some (.I (if digitsVal b ≤ digitsVal a then 1 else 0)) := by
  have heq : (a ++ (['>', '='] : LC) ++ b).length + 1
      = a.length + b.length + 1 + 1 + 1 := by
    simp [List.length_append]
    omega
  rw [pyEval, heq]
  exact evalF_rel_ge _ ha hb

theorem pyEval_rel_lt {a b : LC} (ha : isDigits a = true) (hb : isDigits b = true) :
    pyEval (a ++ ['<'] ++ b) [] =
      some (.I (if digitsVal a < digitsVal b then 1 else 0)) := by
  have heq : (a ++ (['<'] : LC) ++ b).length + 1
      = a.length + b.length + 1 + 1 := by
    simp [List.length_append]
    omega
  rw [pyEval, heq]
  exact evalF_rel_lt _ ha hb

theorem pyEval_rel_gt {a b : LC} (ha : isDigits a = true) (hb : isDigits b = true) :
    pyEval (a ++ ['>'] ++ b) [] =
      some (.I (if digitsVal b < digitsVal a then 1 else 0)) := by
  have heq : (a ++ (['>'] : LC) ++ b).length + 1
      = a.length + b.length + 1 + 1 := by
    simp [List.length_append]
    omega
  rw [pyEval, heq]
  exact evalF_rel_gt _ ha hb

theorem pyEval_rel_eq {a b : LC} (ha : isDigits a = true) (hb : isDigits b = true) :
    pyEval (a ++ ['=', '='] ++ b) [] =
      some (.I (if digitsVal a = digitsVal b then 1 else 0)) := by
  have heq : (a ++ (['=', '='] : LC) ++ b).length + 1
      = a.length + b.length + 1 + 1 + 1 := by
    simp [List.length_append]
    omega
  rw [pyEval, heq]
  exact evalF_rel_eq _ ha hb

theorem pyEval_rel_ne_spaced {a b : LC} (ha : isDigits a = true)
    (hb : isDigits b = true) :
    pyEval (a ++ [' ', '!', '=', ' '] ++ b) [] =
      some (.I (if digitsVal a = digitsVal b then 0 else 1)) := by
  have heq : (a ++ ([' ', '!', '=', ' '] : LC) ++ b).length + 1
      = a.length + b.length + 3 + 1 + 1 := by
    simp [List.length_append]
    omega
  rw [pyEval, heq]
  exact evalF_rel_ne_spaced _ ha hb

theorem pyEval_rel_ne_bare {a b : LC} (ha : isDigits a = true)
    (hb : isDigits b = true) :
    pyEval (a ++ ['!', '='] ++ b) [] = none := by
  have heq : (a ++ (['!', '='] : LC) ++ b).length + 1
      = a.length + b.length + 2 + 1 := by
    simp [List.length_append]
    omega
  rw [pyEval, heq]
  exact evalF_rel_ne_bare _ ha hb

theorem pyEval_add_before_rel {a b c : LC} (ha : isDigits a = true)
    (hb : isDigits b = true) (hc : isDigits c = true) :
    pyEval (a ++ ['+'] ++ b ++ ['<', '='] ++ c) [] =
      some (.I ((digitsVal a : Int) +
        if digitsVal b ≤ digitsVal c then 1 else 0)) := by
  have heq : (a ++ (['+'] : LC) ++ b ++ ['<', '='] ++ c).length + 1
      = a.length + b.length + c.length + 1 + 1 + 1 + 1 := by
    simp [List.length_append]
    omega
  rw [pyEval, heq]
  exact evalF_add_before_rel _ ha hb hc

theorem mem_updateA {β : Type} {k : LC} {v : β} {l : AList β} {p : LC × β}
    (hp : p ∈ updateA k v l) : p = (k, v) ∨ p ∈ l := by
  induction l with
  | nil => simpa [updateA] using hp
  | cons q rest ih =>
    obtain ⟨k2, w⟩ := q
    simp only [updateA] at hp
    split at hp
    · rename_i heq
      subst heq
      rcases List.mem_cons.mp hp with h1 | h1
      · exact Or.inl (by simpa using h1)
      · exact Or.inr (List.mem_cons_of_mem _ h1)
    · rcases List.mem_cons.mp hp with h1 | h1
      · exact Or.inr (by simp [h1])
      · rcases ih h1 with h2 | h2
        · exact Or.inl h2
        · exact Or.inr (List.mem_cons_of_mem _ h2)

theorem lookupA_mem {β : Type} {k : LC} {l : AList β} {v : β}
    (h : lookupA k l = some v) : (k, v) ∈ l := by
  induction l with
  | nil => simp [lookupA] at h
  | cons q rest ih =>
    obtain ⟨k2, w⟩ := q
    simp only [lookupA] at h
    split at h
    · rename_i heq
      obtain rfl := heq
      obtain rfl : w = v := by simpa using h
      exact List.mem_cons_self _ _
    · exact List.mem_cons_of_mem _ (ih h)

theorem classifyAux_instrs_mono (lines : List LC) (instrs : List LC)
    (labels : AList Nat) :
    instrs.length ≤ (classifyAux lines instrs labels).1.length := by
  induction lines generalizing instrs labels with
  | nil => simp [classifyAux]
  | cons l rest ih =>
    simp only [classifyAux]
    split
    · exact ih instrs labels
    · split
      · exact ih instrs _
      · split
        · exact le_trans (by simp) (ih (instrs ++ [pyStrip l]) labels)
        · exact ih instrs labels

theorem classifyAux_labels_bound (lines : List LC) (instrs : List LC)
    (labels : AList Nat)
    (h : ∀ p ∈ labels, p.2 ≤ instrs.length) :
    ∀ p ∈ (classifyAux lines instrs labels).2,
      p.2 ≤ (classifyAux lines instrs labels).1.length := by
  induction lines generalizing instrs labels with
  | nil =>
    intro p hp
    simp only [classifyAux] at hp ⊢
    exact h p hp
  | cons l rest ih =>
    simp only [classifyAux]
    split
    · exact ih instrs labels h
    · split
      · refine ih instrs _ ?_
        intro p hp
        rcases mem_updateA hp with h1 | h1
        · simp [h1]
        · exact h p h1
      · split
        · refine ih (instrs ++ [pyStrip l]) labels ?_
          intro p hp
          exact le_trans (h p hp) (by simp)
        · exact ih instrs labels h

theorem lookupA_getD_bound {k : LC} {labels : AList Nat} {d n : Nat}
    (hb : ∀ p ∈ labels, p.2 ≤ n) (hd : d ≤ n) : (lookupA k labels).getD d ≤ n := by
  cases h : lookupA k labels with
  | none => simpa using hd
  | some i => simpa using hb (k, i) (lookupA_mem h)

theorem assignResult_pc (ctx : Ctx) (s : SimState) (line : LC) :
    (assignResult ctx s line).pc = s.pc + 1 := by
  simp only [assignResult]
  split
  · rfl
  · split
    · rfl
    · split
      · rfl
      · split
        · split
          · rfl
          · rfl
        · rfl

/-! ## Claim theorems -/

/-- C1: for every input list of IR text lines, `simulate_ir_execution`
returns a `(trace, outcome)` pair and never raises, and for every
expression string and environment `evaluate_simple_expression` returns a
number or the not-computable sentinel and never raises.  In the embedding
the absence of exceptions is structural: both functions are total, the one
internal raise site of the source (the `int`/`float` parse inside the
numeric-literal branch) being caught by the source's function-level
`try/except` and modelled as the `none` result. -/
theorem C1_total_no_exception :
    (∀ irLines : List LC, ∃ steps out, simulate irLines = (steps, out)) ∧
    (∀ (e : LC) (env : Env), pyEval e env = none ∨ ∃ v, pyEval e env = some v) := by
  constructor
  · intro irLines
    exact ⟨(simulate irLines).1, (simulate irLines).2, rfl⟩
  · intro e env
    cases h : pyEval e env with
    | none => exact Or.inl rfl
    | some v => exact Or.inr ⟨v, rfl⟩

/-- C3 (code bug): the claim demands the mathematically correct result for
every single-arithmetic-operator expression over two numeric literals, and
`"3+4"` and `"10/0"` do behave as claimed; but `"3-4"` yields the
not-computable sentinel instead of `-1`: the numeric-literal guard strips
`-` (and `.`) before testing `isdigit`, accepts `"34"`, and then
`int("3-4")` raises, which the catch-all returns as `None`, bypassing the
evaluator's own subtraction branch. -/
theorem C3_literal_subtraction_bug :
    pyEval "3-4".data [] = none ∧
    pyEval "3+4".data [] = some (.I 7) ∧
    pyEval "10/0".data [] = none := by
  refine ⟨by decide, by decide, by decide⟩

/-- C7: the simulation loop is bounded by the fixed cap
`max_iterations = 1000`, independent of the instruction stream (conjunct 3
exhibits the constant); exhausting the cap returns the trace so far with
the "unresolved" outcome (conjunct 2); and the concrete cyclic jump stream
`["L1:", "jump L1"]`, which never reaches a `return`, terminates with
`([], unresolved)` (conjunct 1). -/
theorem C7_iteration_cap :
    simulate (["L1:", "jump L1"].map String.data) = ([], .unresolved) ∧
    (∀ ctx s, loopF ctx 0 s = (s.calcSteps, .unresolved)) ∧
    (∀ irLines, simulate irLines = loopF (mkCtx irLines) 1000 initState) := by
  refine ⟨by with_unfolding_all rfl, fun ctx s => rfl, fun irLines => rfl⟩

/-- C9 (counterexample): a stream in which the line `"arr = *base"` is
immediately followed by `"return arr"` can still produce a plain numeric
outcome — not the array-dependent sentinel — when `arr` was bound earlier:
the return expression resolves against the environment before the
array-dependence fallback is consulted. -/
theorem C9_counterexample :
    simulate (["arr = 7", "arr = *base", "return arr"].map String.data)
      = (["arr = 7"].map String.data, .num (.I 7)) ∧
    SimOutcome.num (.I 7) ≠ SimOutcome.arrayDependent := by
  refine ⟨by with_unfolding_all rfl, by decide⟩

/-- C9 (amended): for the stream consisting of `"arr = *base"` followed by
`"return arr"` (with no earlier binding of `arr`), the outcome is the
array-dependent sentinel, never a numeric guess presented as exact. -/
theorem C9_amended_array_sentinel :
    simulate (["arr = *base", "return arr"].map String.data)
      = ([], .arrayDependent) := by
  with_unfolding_all rfl

/-- C5 (counterexample): a `return` instruction with an empty expression
does not always halt with "unresolved": after an array operation has been
observed, the malformed line `"= 5"` records the empty name in the
assignment log, and the empty return expression is then resolved through
the log to the numeric outcome `5`. -/
theorem C5_counterexample :
    simulate (["t0 = *a", "= 5", "return"].map String.data) = ([], .num (.I 5)) ∧
    SimOutcome.num (.I 5) ≠ SimOutcome.unresolved := by
  refine ⟨by with_unfolding_all rfl, by decide⟩

/-- C6 (counterexample): a return value produced by the
first-plus-third-temporaries heuristic is NOT distinguishable from a
directly computed value: the heuristic run (first stream — `t9` was never
computed, an array operation was observed, and the value is guessed as
`t0 + t4 = 1 + 6`) produces a `SimulationResult` literally identical to
the direct run (second stream — `return 7` evaluated exactly). -/
theorem C6_counterexample :
    simulate (["t0 = 1", "t2 = 2", "t4 = 6", "x = *a", "t9 = t6 + t8",
        "return t9"].map String.data)
      = (["t0 = 1", "t2 = 2", "t4 = 6"].map String.data, .num (.I 7)) ∧
    simulate (["t0 = 1", "t2 = 2", "t4 = 6", "return 7"].map String.data)
      = (["t0 = 1", "t2 = 2", "t4 = 6"].map String.data, .num (.I 7)) := by
  refine ⟨by with_unfolding_all rfl, by with_unfolding_all rfl⟩

/-- C10: throughout every simulation run the program counter stays between
`0` and the length `N` of the normalized instruction stream inclusive
(`pc : Nat`, so `0 ≤ pc` holds by type): every index recorded in the label
table is at most `N` (conjunct 1), and every non-terminating transition of
the loop body — sequential advance or jump — maps a pc with `pc < N` to a
pc with `pc ≤ N` (conjunct 2); `pc = N` means termination via the loop
guard. -/
theorem C10_pc_in_bounds :
    (∀ irLines : List LC, ∀ p ∈ (mkCtx irLines).labels,
      p.2 ≤ (mkCtx irLines).instrs.length) ∧
    (∀ (ctx : Ctx) (s s2 : SimState), s.pc < ctx.instrs.length →
      (∀ p ∈ ctx.labels, p.2 ≤ ctx.instrs.length) →
      stepFn ctx s = .next s2 → s2.pc ≤ ctx.instrs.length) := by
  constructor
  · intro irLines p hp
    have hb := classifyAux_labels_bound irLines [] [] (by simp)
    simp only [mkCtx] at hp ⊢
    exact hb p hp
  · intro ctx s s2 hpc hbound hstep
    simp only [stepFn] at hstep
    split at hstep
    · rw [StepRes.next.injEq] at hstep
      subst hstep
      simpa using hpc
    · split at hstep
      · -- jump instruction
        split at hstep
        · rename_i i heq
          rw [StepRes.next.injEq] at hstep
          subst hstep
          simpa using hbound _ (lookupA_mem heq)
        · rw [StepRes.next.injEq] at hstep
          subst hstep
          simpa using hpc
      · split at hstep
        · -- conditional jump
          split at hstep
          · split at hstep
            · rw [StepRes.next.injEq] at hstep
              subst hstep
              simpa using lookupA_getD_bound hbound (by omega)
            · split at hstep
              · rw [StepRes.next.injEq] at hstep
                subst hstep
                simpa using lookupA_getD_bound hbound (by omega)
              · rw [StepRes.next.injEq] at hstep
                subst hstep
                simpa using hpc
          · rw [StepRes.next.injEq] at hstep
            subst hstep
            simpa using hpc
        · split at hstep
          · -- assignment block
            rw [StepRes.next.injEq] at hstep
            subst hstep
            rw [assignResult_pc]
            omega
          · split at hstep
            · -- return instruction: never a .next result
              exact StepRes.noConfusion hstep
            · rw [StepRes.next.injEq] at hstep
              subst hstep
              simpa using hpc

/-- C8: for every jump instruction — unconditional (conjunct 1), or
conditional whose branch condition is satisfied (conjunct 2) — whose target
label is absent from the label table, the simulator does not raise: the
program counter advances by exactly one past the jump instruction (state
otherwise unchanged) and execution continues. -/
theorem C8_fail_open_jump :
    (∀ (ctx : Ctx) (s : SimState) (l : LC),
      ctx.instrs.getD s.pc [] = l →
      (("jump ".data).isPrefixOf l) = true →
      lookupA (pyStrip (l.drop 5)) ctx.labels = none →
      stepFn ctx s = .next { s with pc := s.pc + 1 }) ∧
    (∀ (ctx : Ctx) (s : SimState) (l : LC),
      ctx.instrs.getD s.pc [] = l →
      (("if ".data).isPrefixOf l) = true →
      (splitWS l).length ≥ 6 →
      (splitWS l).getD 4 [] = "goto".data →
      lookupA ((splitWS l).getD 5 []) ctx.labels = none →
      (((splitWS l).getD 2 [] = ['!', '='] ∧
          valIsZero ((pyEval ((splitWS l).getD 1 []) s.varValues).getD (.I 0)) = false) ∨
        ((splitWS l).getD 2 [] = ['=', '='] ∧
          valIsZero ((pyEval ((splitWS l).getD 1 []) s.varValues).getD (.I 0)) = true)) →
      stepFn ctx s = .next { s with pc := s.pc + 1 }) := by
  constructor
  · intro ctx s l hline hjump htgt
    simp only [stepFn, hline]
    by_cases hcolon : endsWithL [':'] l = true
    · rw [if_pos hcolon]
    · simp [hcolon, hjump, htgt]
  · intro ctx s l hline hif hlen hgoto htgt hsat
    obtain ⟨t, ht⟩ := List.isPrefixOf_iff_prefix.mp hif
    have hl : l = 'i' :: 'f' :: ' ' :: t := by rw [← ht]; rfl
    subst hl
    simp only [stepFn, hline]
    by_cases hcolon : endsWithL [':'] ('i' :: 'f' :: ' ' :: t) = true
    · rw [if_pos hcolon]
    · have hnj : (("jump ".data).isPrefixOf ('i' :: 'f' :: ' ' :: t)) = false := by
        simp [List.isPrefixOf]
      rw [if_neg (by simp [hcolon]), if_neg (by simp [hnj]), if_pos (by simp [hif]),
        if_pos hlen]
      simp only [List.getD, List.get?_eq_getElem?] at hgoto htgt hsat
      rcases hsat with ⟨hop, hval⟩ | ⟨hop, hval⟩
      · simp [hop, hval, htgt, hgoto]
      · simp [hop, hval, htgt, hgoto]

/-- Witness for C8: the unconditional jump `"jump L9"` and the satisfied
conditional jump `"if x == 0 goto L9"` (condition defaults to `0`, so the
`==`-branch fires), both with target `L9` absent from the label table,
advance the program counter from `0` to `1`. -/
theorem C8_fail_open_jump_witness :
    stepFn (mkCtx (["jump L9"].map String.data)) initState
        = .next { initState with pc := initState.pc + 1 } ∧
    stepFn (mkCtx (["if x == 0 goto L9"].map String.data)) initState
        = .next { initState with pc := initState.pc + 1 } :=
  ⟨C8_fail_open_jump.1 _ initState _ rfl (by decide) (by decide),
   C8_fail_open_jump.2 _ initState _ rfl (by decide) (by decide) (by decide)
     (by decide) (Or.inr ⟨by decide, by decide⟩)⟩

/-- C5 (amended): executing a `return` instruction whose expression is
empty halts the simulation with the "unresolved" outcome — regardless of
call markers — provided no array operation has been observed in the run
(and the empty name, never bound by a well-formed assignment, is indeed
unbound).  When the array flag is set, the empty expression can instead be
resolved through the assignment log (see the counterexample). -/
theorem C5_amended_empty_return (ctx : Ctx) (s : SimState)
    (hline : ctx.instrs.getD s.pc [] = "return".data)
    (harr : s.hasArrayOps = false)
    (henv : lookupA [] s.varValues = none) :
    stepFn ctx s = .done (s.calcSteps, .unresolved) := by
  simp only [stepFn, hline]
  rw [if_neg (by decide), if_neg (by decide), if_neg (by decide), if_neg (by decide),
    if_pos (by decide)]
  simp only [returnResult, harr]
  simp [pyEval, pyEvalF, pyStrip, pyLStrip, pyRStrip, isDigits, containsSub,
    List.isPrefixOf, splitOnL, splitGo, pyIsSpace, henv]

/-- Witness for C5 (amended): the one-line stream state executing a bare
`"return"` with no array operations halts unresolved. -/
theorem C5_amended_empty_return_witness :
    stepFn (mkCtx (["return"].map String.data)) initState = .done ([], .unresolved) :=
  C5_amended_empty_return _ initState (by decide) rfl rfl

/-- C6 (amended): when the first-plus-third-temporaries heuristic produces
the return value (array flag set, return expression unresolved, logged
right-hand side an unevaluable addition, three numerically-resolved
temporaries), the simulation reports the guessed sum as a plain numeric
outcome `num (t0 + t4)` — the same constructor used for directly computed
values, with no distinguishing mark in the `SimulationResult`. -/
theorem C6_amended_heuristic_plain_num (ctx : Ctx) (s : SimState) (a b c : Int)
    (hline : ctx.instrs.getD s.pc [] = "return t9".data)
    (harr : s.hasArrayOps = true)
    (henv : s.varValues = [("t0".data, .I a), ("t2".data, .I b), ("t4".data, .I c)])
    (hlog : lookupA "t9".data s.assignExprs = some ("t6 + t8".data)) :
    stepFn ctx s = .done (s.calcSteps, .num (.I (a + c))) := by
  have hlog2 : lookupA ['t', '9'] s.assignExprs
      = some ['t', '6', ' ', '+', ' ', 't', '8'] := hlog
  simp only [stepFn, hline]
  rw [if_neg (by decide), if_neg (by decide), if_neg (by decide), if_neg (by decide),
    if_pos (by decide)]
  simp only [returnResult, henv, harr]
  simp [pyEval, pyEvalF, lookupA, pyStrip, pyLStrip, pyRStrip, isDigits, containsSub,
    List.isPrefixOf, splitOnL, splitGo, pyIsSpace, memA, keysA, sortByKey, insSorted,
    splitFirst, valAdd, digitsVal, hlog2]

/-- Witness for C6 (amended): with temporaries `t0 = 1`, `t2 = 2`, `t4 = 6`
and the logged unresolved addition `t9 = t6 + t8`, the heuristic reports the
plain numeric outcome `7 = 1 + 6`. -/
theorem C6_amended_heuristic_plain_num_witness :
    stepFn { instrs := ["return t9".data], labels := [], arrayVars := [],
             hasIncomplete := false }
        { varValues := [("t0".data, .I 1), ("t2".data, .I 2), ("t4".data, .I 6)],
          assignExprs := [("t9".data, "t6 + t8".data)], calcSteps := [],
          pc := 0, hasArrayOps := true }
      = .done ([], .num (.I 7)) :=
  C6_amended_heuristic_plain_num _ _ 1 2 6 (by decide) rfl rfl (by decide)

/-- Witness for C10: in the context of the cyclic stream
`["L1:", "jump L1"]`, the recorded label index `0` is within the
one-instruction stream, and the jump transition from `pc = 0` lands at
`0 ≤ 1`. -/
theorem C10_pc_in_bounds_witness :
    ("L1".data, 0) ∈ (mkCtx (["L1:", "jump L1"].map String.data)).labels ∧
    (0 : Nat) ≤ (mkCtx (["L1:", "jump L1"].map String.data)).instrs.length ∧
    stepFn (mkCtx (["L1:", "jump L1"].map String.data)) initState
      = .next { initState with pc := 0 } ∧
    ({ initState with pc := 0 } : SimState).pc
      ≤ (mkCtx (["L1:", "jump L1"].map String.data)).instrs.length :=
  ⟨by decide,
   C10_pc_in_bounds.1 (["L1:", "jump L1"].map String.data) ("L1".data, 0) (by decide),
   by decide,
   C10_pc_in_bounds.2 (mkCtx (["L1:", "jump L1"].map String.data)) initState
     { initState with pc := 0 } (by decide) (by decide) (by decide)⟩

/-- C2 (counterexample): the evaluator does NOT test the binary operators
in the claimed order (`<=` before `+`): on `"1+2<=4"` the source splits on
`+` first and returns `1 + (2<=4) = 2`, whereas an evaluator following the
claim's order (`specEval`, modelled from the claim's words) returns
`(1+2) <= 4 = 1`; and `"1!=2"` is not computable for the source (`!=` is
only recognized when preceded by a space), whereas the claimed order
returns `1`. -/
theorem C2_counterexample :
    pyEval "1+2<=4".data [] = some (.I 2) ∧
    specEval "1+2<=4".data [] = some (.I 1) ∧
    pyEval "1!=2".data [] = none ∧
    specEval "1!=2".data [] = some (.I 1) := by
  refine ⟨by decide, by decide, by decide, by decide⟩

/-- C2 (amended): binary operators are tested in the fixed order `+`, `-`,
`*`, `/`, `<=`, `>=`, `<` (only if no `<=` is present), `>` (only if no
`>=` is present), `==`, `!=` (this last only when preceded by a space),
each split on only if it occurs exactly once; an attempt that fails to
produce a value falls through to the later operators.  Conjunct 1:
arithmetic is tried before relational — `a+b<=c` evaluates as
`a + (b<=c)`, not as `(a+b)<=c`.  Conjunct 2: a bare `!=` between digit
literals is never split, yielding the not-computable sentinel.  Conjunct
3: a failed division attempt (zero divisor 8/(2==4)) falls through so a
later operator (`==`) determines the value. -/
theorem C2_amended_operator_order :
    (∀ a b c : LC, isDigits a = true → isDigits b = true → isDigits c = true →
      pyEval (a ++ ['+'] ++ b ++ ['<', '='] ++ c) [] =
        some (.I ((digitsVal a : Int) +
          if digitsVal b ≤ digitsVal c then 1 else 0))) ∧
    (∀ a b : LC, isDigits a = true → isDigits b = true →
      pyEval (a ++ ['!', '='] ++ b) [] = none) ∧
    pyEval "8/2==4".data [] = some (.I 1) := by
  refine ⟨fun a b c ha hb hc => pyEval_add_before_rel ha hb hc,
    fun a b ha hb => pyEval_rel_ne_bare ha hb, by with_unfolding_all rfl⟩

/-- Witness for C2 (amended): `"1+2<=4"` evaluates to `1 + (2<=4) = 2`,
and `"1!=2"` to the not-computable sentinel. -/
theorem C2_amended_operator_order_witness :
    pyEval ("1".data ++ ['+'] ++ "2".data ++ ['<', '='] ++ "4".data) []
        = some (.I ((digitsVal "1".data : Int) +
          if digitsVal "2".data ≤ digitsVal "4".data then 1 else 0)) ∧
    pyEval ("1".data ++ ['!', '='] ++ "2".data) [] = none :=
  ⟨C2_amended_operator_order.1 "1".data "2".data "4".data
      (by decide) (by decide) (by decide),
   C2_amended_operator_order.2.1 "1".data "2".data (by decide) (by decide)⟩

/-- C4 (counterexample): the claim fails as stated: `"1!=2"` has exactly
one relational operator and numeric operands, yet the source yields the
not-computable sentinel (`!=` requires a preceding space), not `1`; and
`"1+1<=3"` has exactly one relational operator whose operand substrings
both evaluate to numbers, yet the result is `2` (the `+` split is tried
first), neither `1` nor `0`. -/
theorem C4_counterexample :
    pyEval "1!=2".data [] = none ∧
    pyEval "1+1<=3".data [] = some (.I 2) ∧
    (none : Option Val) ≠ some (.I 1) ∧
    (some (Val.I 2) ≠ some (.I 1) ∧ some (Val.I 2) ≠ some (.I 0)) := by
  refine ⟨by decide, by decide, by decide, by decide, by decide⟩

/-- C4 (amended): for every expression `<digit literal> op <digit literal>`
with `op` among `<=`, `>=`, `<`, `>`, `==`, the evaluator returns the
integer `1` when the relation holds and `0` when it does not; `!=` behaves
that way only when spelled with surrounding spaces (`a != b`), while a bare
`a!=b` yields the not-computable sentinel.  (When an operand substring
itself contains an arithmetic operator, the arithmetic split takes
precedence and the result need not be `0`/`1` — see the counterexample.) -/
theorem C4_amended_relational_ops :
    ∀ a b : LC, isDigits a = true → isDigits b = true →
      pyEval (a ++ ['<', '='] ++ b) [] =
        some (.I (if digitsVal a ≤ digitsVal b then 1 else 0)) ∧
      pyEval (a ++ ['>', '='] ++ b) [] =
        some (.I (if digitsVal b ≤ digitsVal a then 1 else 0)) ∧
      pyEval (a ++ ['<'] ++ b) [] =
        some (.I (if digitsVal a < digitsVal b then 1 else 0)) ∧
      pyEval (a ++ ['>'] ++ b) [] =
        some (.I (if digitsVal b < digitsVal a then 1 else 0)) ∧
      pyEval (a ++ ['=', '='] ++ b) [] =
        some (.I (if digitsVal a = digitsVal b then 1 else 0)) ∧
      pyEval (a ++ [' ', '!', '=', ' '] ++ b) [] =
        some (.I (if digitsVal a = digitsVal b then 0 else 1)) ∧
      pyEval (a ++ ['!', '='] ++ b) [] = none :=
  fun _ _ ha hb =>
    ⟨pyEval_rel_le ha hb, pyEval_rel_ge ha hb, pyEval_rel_lt ha hb,
     pyEval_rel_gt ha hb, pyEval_rel_eq ha hb, pyEval_rel_ne_spaced ha hb,
     pyEval_rel_ne_bare ha hb⟩

/-- Witness for C4 (amended): the spec's own examples — `"5>=5"` yields `1`
and `"2<1"` yields `0`. -/
theorem C4_amended_relational_ops_witness :
    pyEval ("5".data ++ ['>', '='] ++ "5".data) []
        = some (.I (if digitsVal "5".data ≤ digitsVal "5".data then 1 else 0)) ∧
    pyEval ("2".data ++ ['<'] ++ "1".data) []
        = some (.I (if digitsVal "2".data < digitsVal "1".data then 1 else 0)) :=
  ⟨(C4_amended_relational_ops "5".data "5".data (by decide) (by decide)).2.1,
   (C4_amended_relational_ops "2".data "1".data (by decide) (by decide)).2.2.1⟩

end Sim
